import Mathlib

/-!
Verification development for the coffee-shop HTTP API
(menu items, daily specials, store hours; soft-delete lifecycle).

The definitions below are a shallow embedding of the route handlers in
`dist/index.js` (the compiled server, which is the code that runs) and of
the drizzle schema in `db/schema.ts`.  Timestamps are modelled as `Nat`
(milliseconds since epoch), SQL rows as Lean structures, tables as lists,
and each route handler as a pure function from the table state and the
validated request data to a response (HTTP status, optional body record)
plus the successor table state.
-/

namespace CoffeeShop

/-! ## JavaScript string helpers

`jsWs` models the characters matched by the regex class `\s` (restricted
to the ASCII range, which is all the code ever meets); `skipWs` models a
greedy `\s*`; `jsTrim` models `String.prototype.trim`. -/

def jsWs (c : Char) : Bool :=
  c = ' ' || c = '\t' || c = '\n' || c = '\r' || c = '\x0b' || c = '\x0c'

def skipWs : List Char → List Char
  | [] => []
  | c :: cs => if jsWs c then skipWs cs else c :: cs

def jsTrim (l : List Char) : List Char :=
  ((skipWs (skipWs l).reverse)).reverse

def isDigit (c : Char) : Bool :=
  decide (48 ≤ c.toNat ∧ c.toNat ≤ 57)

def digitVal (c : Char) : Nat := c.toNat - 48

/-- Case-insensitive comparison of an input character `c` against a
pattern character `t` that is itself lowercase (models a `/i` regex flag
on an ASCII pattern letter; for a non-letter pattern character it is just
equality). -/
def ciEq (c t : Char) : Bool :=
  c = t || (decide (97 ≤ t.toNat ∧ t.toNat ≤ 122) && decide (c.toNat + 32 = t.toNat))

def ciMatch : List Char → List Char → Bool
  | [], [] => true
  | c :: cs, t :: ts => ciEq c t && ciMatch cs ts
  | _, _ => false

/-! ## Hours-format validator (`isValidHoursFormat`, dist/index.js lines 700-771)

The validator first tests the trimmed string against a keyword regex,
then against an anchored 12-hour-range regex, then against two anchored
24-hour-range regexes, applying numeric bounds checks to whichever
pattern matched.  Each anchored regex is embedded as a deterministic
parser on the character list; determinism is justified because in every
alternation or option of those regexes the follow set cannot overlap
with the optional part (digits are never followed by digits, whitespace
never precedes a whitespace-insensitive token, the meridiem branches are
discriminated by their second character). -/

/-- Tail of the keyword regex after a leading `24`:
`\s*h(?:ours?)?` or `\s*\/\s*7` (dist/index.js line 703). -/
def kw24Tail (l : List Char) : Bool :=
  match skipWs l with
  | c :: rest =>
    if ciEq c 'h' then
      rest.isEmpty || ciMatch rest ['o', 'u', 'r'] || ciMatch rest ['o', 'u', 'r', 's']
    else if c = '/' then
      match skipWs rest with
      | [d] => d = '7'
      | _ => false
    else false
  | [] => false

/-- Tail of the keyword regex after a leading `open`: `\s*24\s*hours?`. -/
def kwOpenTail (l : List Char) : Bool :=
  match skipWs l with
  | '2' :: '4' :: rest =>
    match skipWs rest with
    | h :: o :: u :: r :: rest2 =>
      ciEq h 'h' && ciEq o 'o' && ciEq u 'u' && ciEq r 'r' &&
        (rest2.isEmpty || ciMatch rest2 ['s'])
    | _ => false
  | _ => false

/-- The keyword regex
`^(closed|off|24\s*h(?:ours?)?|24\s*\/\s*7|open\s*24\s*hours?)$/i`. -/
def isKeyword (l : List Char) : Bool :=
  ciMatch l ['c', 'l', 'o', 's', 'e', 'd'] ||
  ciMatch l ['o', 'f', 'f'] ||
  (match l with
   | c1 :: c2 :: rest =>
     (c1 = '2' && c2 = '4' && kw24Tail rest) ||
     (ciEq c1 'o' && ciEq c2 'p' &&
       (match rest with
        | e :: n :: rest2 => ciEq e 'e' && ciEq n 'n' && kwOpenTail rest2
        | _ => false))
   | _ => false)

/-- `\d{1,2}` (greedy), returning the numeric value. -/
def parseUpTo2Digits : List Char → Option (Nat × List Char)
  | [] => none
  | c :: cs =>
    if isDigit c then
      match cs with
      | c2 :: cs2 =>
        if isDigit c2 then some (digitVal c * 10 + digitVal c2, cs2)
        else some (digitVal c, c2 :: cs2)
      | [] => some (digitVal c, [])
    else none

/-- `\d{2}` (exactly two digits), returning the numeric value. -/
def parseExact2Digits : List Char → Option (Nat × List Char)
  | c1 :: c2 :: rest =>
    if isDigit c1 && isDigit c2 then some (digitVal c1 * 10 + digitVal c2, rest)
    else none
  | _ => none

/-- `(?:am|a\.m\.|pm|p\.m\.)/i` (the meridiem alternation of the
12-hour pattern, dist/index.js line 710). -/
def parseMeridiem (l : List Char) : Option (List Char) :=
  match l with
  | c :: rest =>
    if ciEq c 'a' || ciEq c 'p' then
      match rest with
      | m :: rest2 =>
        if ciEq m 'm' then some rest2
        else if m = '.' then
          match rest2 with
          | m2 :: d2 :: rest3 =>
            if ciEq m2 'm' && d2 = '.' then some rest3 else none
          | _ => none
        else none
      | [] => none
    else none
  | [] => none

/-- `(?:[-–—]|to)` under a `/i` flag (separator of the 12-hour pattern). -/
def parseSepCi (l : List Char) : Option (List Char) :=
  match l with
  | c :: rest =>
    if c = '-' || c = '–' || c = '—' then some rest
    else if ciEq c 't' then
      match rest with
      | o :: rest2 => if ciEq o 'o' then some rest2 else none
      | [] => none
    else none
  | [] => none

/-- `(?:[-–—]|to)` without `/i` (separator of the 24-hour patterns,
which are compiled without the `i` flag, so only lowercase `to`). -/
def parseSepCs (l : List Char) : Option (List Char) :=
  match l with
  | c :: rest =>
    if c = '-' || c = '–' || c = '—' then some rest
    else if c = 't' then
      match rest with
      | 'o' :: rest2 => some rest2
      | _ => none
    else none
  | [] => none

/-- `\d{1,2}(?::\d{2})?` — one 12-hour time, minutes defaulting to 0
(mirrors `match[2] ? parseInt(match[2], 10) : 0`). -/
def parse12Time (l : List Char) : Option (Nat × Nat × List Char) :=
  match parseUpTo2Digits l with
  | none => none
  | some (h, rest) =>
    match rest with
    | ':' :: rest2 =>
      match parseExact2Digits rest2 with
      | some (m, rest3) => some (h, m, rest3)
      | none => none
    | _ => some (h, 0, rest)

/-- The full anchored 12-hour pattern (dist/index.js line 710): two
meridiem-tagged times joined by a separator, flexible whitespace. -/
def parse12h (l : List Char) : Option (Nat × Nat × Nat × Nat) :=
  match parse12Time l with
  | none => none
  | some (h1, m1, r1) =>
    match parseMeridiem (skipWs r1) with
    | none => none
    | some r2 =>
      match parseSepCi (skipWs r2) with
      | none => none
      | some r3 =>
        match parse12Time (skipWs r3) with
        | none => none
        | some (h2, m2, r4) =>
          match parseMeridiem (skipWs r4) with
          | none => none
          | some r5 => if r5.isEmpty then some (h1, m1, h2, m2) else none

/-- `\d{1,2}[.:]\d{2}` — one colon/dot 24-hour time; the numeric pair is
exactly what the bounds-check loop computes by splitting on `[:.]`. -/
def parse24cTime (l : List Char) : Option (Nat × Nat × List Char) :=
  match parseUpTo2Digits l with
  | none => none
  | some (h, rest) =>
    match rest with
    | c :: rest2 =>
      if c = ':' || c = '.' then
        match parseExact2Digits rest2 with
        | some (m, rest3) => some (h, m, rest3)
        | none => none
      else none
    | [] => none

/-- The anchored colon/dot 24-hour pattern
`^(\d{1,2}[.:]\d{2})\s*(?:[-–—]|to)\s*(\d{1,2}[.:]\d{2})$`
(dist/index.js line 714). -/
def parse24colon (l : List Char) : Option (Nat × Nat × Nat × Nat) :=
  match parse24cTime l with
  | none => none
  | some (h1, m1, r1) =>
    match parseSepCs (skipWs r1) with
    | none => none
    | some r2 =>
      match parse24cTime (skipWs r2) with
      | none => none
      | some (h2, m2, r3) => if r3.isEmpty then some (h1, m1, h2, m2) else none

/-- `\d{3,4}` — a maximal run of digits whose length is 3 or 4 (a longer
run makes the anchored regex fail with or without backtracking). -/
def parse34 (l : List Char) : Option (List Char × List Char) :=
  let ds := l.takeWhile isDigit
  if ds.length = 3 || ds.length = 4 then some (ds, l.dropWhile isDigit) else none

/-- The anchored compact 24-hour pattern
`^(\d{3,4})\s*(?:[-–—]|to)\s*(\d{3,4})$` (dist/index.js line 715),
returning the two digit runs. -/
def parse24compact (l : List Char) : Option (List Char × List Char) :=
  match parse34 l with
  | none => none
  | some (t1, r1) =>
    match parseSepCs (skipWs r1) with
    | none => none
    | some r2 =>
      match parse34 (skipWs r2) with
      | none => none
      | some (t2, r3) => if r3.isEmpty then some (t1, t2) else none

def natOfDigits (ds : List Char) : Nat :=
  ds.foldl (fun a c => a * 10 + digitVal c) 0

/-- Hour/minute extraction of the bounds-check loop for a compact time
(dist/index.js lines 752-764): a 4-character all-digit time is split
`hh`/`mm`; otherwise `split(/[:.]/)` leaves the whole run as the hour
and the minutes default to `parseInt('0')`. -/
def compactHM (ds : List Char) : Nat × Nat :=
  if ds.length = 4 then (natOfDigits (ds.take 2), natOfDigits (ds.drop 2))
  else (natOfDigits ds, 0)

/-- Body of `isValidHoursFormat` on the already-trimmed string
(dist/index.js lines 700-771): keywords accept unconditionally; a
12-hour match is accepted iff hours lie in `[1,12]` and minutes in
`[0,59]`; a 24-hour match is accepted iff each extracted hour is at most
23 and each minute at most 59; everything else is rejected. -/
def validHours (l : List Char) : Bool :=
  if isKeyword l then true
  else
    match parse12h l with
    | some (h1, m1, h2, m2) =>
      if h1 < 1 || 12 < h1 || 59 < m1 then false
      else if h2 < 1 || 12 < h2 || 59 < m2 then false
      else true
    | none =>
      match parse24colon l with
      | some (h1, m1, h2, m2) =>
        if 23 < h1 || 59 < m1 then false
        else if 23 < h2 || 59 < m2 then false
        else true
      | none =>
        match parse24compact l with
        | some (t1, t2) =>
          if 23 < (compactHM t1).1 || 59 < (compactHM t1).2 then false
          else if 23 < (compactHM t2).1 || 59 < (compactHM t2).2 then false
          else true
        | none => false

/-- `isValidHoursFormat` itself trims its argument first
(dist/index.js line 701). -/
def isValidHoursFormat (s : String) : Bool :=
  validHours (jsTrim s.toList)

/-- Acceptance by the complete per-day zod schema `hoursDaySchema`
(dist/index.js lines 777-783): at most 50 characters, non-empty after
trimming, and valid per `isValidHoursFormat` (which re-trims, a no-op). -/
def hoursDayAccepts (s : String) : Bool :=
  decide (s.length ≤ 50) && !(jsTrim s.toList).isEmpty && validHours (jsTrim s.toList)

/-! ## Data model (db/schema.ts)

`menu_items`: auto-increment `id`, `name` with a physical case-sensitive
`UNIQUE` constraint over the whole table (soft-deleted rows included),
`price` (SQL `real`; modelled as `ℚ`), `description`, `createdAt` and
`updatedAt` (insert-time defaults), nullable `deletedAt`.
`daily_special`: same shape plus `is_active` and nullable
`valid_from`/`valid_to`; its `name` has no uniqueness constraint.
`store_hours`: a single row of seven per-day text fields. -/

structure MenuItem where
  id : Nat
  name : String
  price : ℚ
  description : String
  createdAt : Nat
  updatedAt : Nat
  deletedAt : Option Nat
deriving DecidableEq

structure Special where
  id : Nat
  name : String
  price : ℚ
  description : String
  is_active : Bool
  valid_from : Option Nat
  valid_to : Option Nat
  createdAt : Nat
  updatedAt : Nat
  deletedAt : Option Nat
deriving DecidableEq

structure StoreHours where
  id : Nat
  monday : String
  tuesday : String
  wednesday : String
  thursday : String
  friday : String
  saturday : String
  sunday : String
deriving DecidableEq

/-- Response of a menu route: HTTP status, returned record (if any) and
the table state after the request. -/
structure MenuRes where
  status : Nat
  body : Option MenuItem
  store : List MenuItem
deriving DecidableEq

structure SpecialRes where
  status : Nat
  body : Option Special
  store : List Special
deriving DecidableEq

/-- `LOWER(...)` of SQLite: ASCII-only case folding. -/
def lowerAscii (s : String) : String :=
  String.mk (s.toList.map fun c =>
    if 65 ≤ c.toNat ∧ c.toNat ≤ 90 then Char.ofNat (c.toNat + 32) else c)

/-- Auto-increment id assignment: one more than the largest id in the
table. -/
def nextMenuId (t : List MenuItem) : Nat :=
  (t.map MenuItem.id).foldr max 0 + 1

def nextSpecialId (t : List Special) : Nat :=
  (t.map Special.id).foldr max 0 + 1

/-! ## Menu-item routes (dist/index.js)

Every handler below receives data that already passed its zod schema
(shape validation is the thin outer layer the spec scopes out), so
`name`/`description` arrive trimmed and inside their length bounds. -/

/-- `POST /menu` (dist/index.js lines 1455-1528).  First the handler
itself rejects when a *non-deleted* row matches the new name
case-insensitively; then the insert can still hit the physical
`UNIQUE(name)` constraint of `menu_items`, which compares exact strings
over *all* rows, soft-deleted ones included — the `catch` turns that
into a 409 as well.  On success the handler re-fetches the row by its
(now unique) exact name, i.e. returns the freshly inserted record. -/
def createMenuItem (t : List MenuItem) (name : String) (price : ℚ)
    (descr : String) (now : Nat) : MenuRes :=
  if t.any (fun m => m.deletedAt.isNone && lowerAscii m.name == lowerAscii name) then
    ⟨409, none, t⟩
  else if t.any (fun m => m.name == name) then
    ⟨409, none, t⟩
  else
    let item : MenuItem :=
      ⟨nextMenuId t, name, price, descr, now, now, none⟩
    ⟨201, some item, t ++ [item]⟩

structure MenuUpdate where
  name : Option String
  price : Option ℚ
  description : Option String
deriving DecidableEq

/-- The `UPDATE ... SET {...updates, updatedAt: new Date()}` of
`PATCH /menu/:id` (dist/index.js lines 1216-1223): provided fields are
merged in and `updatedAt` is explicitly touched. -/
def applyMenuUpdate (u : MenuUpdate) (now : Nat) (m : MenuItem) : MenuItem :=
  { m with
    name := u.name.getD m.name
    price := u.price.getD m.price
    description := u.description.getD m.description
    updatedAt := now }

/-- `PATCH /menu/:id` (dist/index.js lines 1168-1247).  Lookup excludes
soft-deleted rows (404 otherwise); a name change is checked
case-insensitively against other non-deleted rows (409), and the SQL
update can additionally violate the physical `UNIQUE(name)` constraint
against the exact name of *any* other row (409 via the catch, no
mutation).  Afterwards the handler re-fetches the row with the
not-deleted filter and returns it (500 if that fetch fails). -/
def updateMenuItem (t : List MenuItem) (i : Nat) (u : MenuUpdate)
    (now : Nat) : MenuRes :=
  match t.find? (fun m => m.id == i && m.deletedAt.isNone) with
  | none => ⟨404, none, t⟩
  | some _ =>
    let conflict : Bool :=
      match u.name with
      | some n =>
        t.any (fun m => (m.deletedAt.isNone && !(m.id == i)) &&
          lowerAscii m.name == lowerAscii n) ||
        t.any (fun m => !(m.id == i) && m.name == n)
      | none => false
    if conflict then ⟨409, none, t⟩
    else
      let t2 := t.map fun m => if m.id == i then applyMenuUpdate u now m else m
      match t2.find? (fun m => m.id == i && m.deletedAt.isNone) with
      | some r => ⟨200, some r, t2⟩
      | none => ⟨500, none, t2⟩

/-- `DELETE /menu/:id` — soft delete (dist/index.js lines 1643-1691).
Lookup excludes already-soft-deleted rows (404, so a second soft delete
of the same id is an error, not a no-op); otherwise `deletedAt` and
`updatedAt` are set and the post-transition row is returned. -/
def softDeleteMenuItem (t : List MenuItem) (i : Nat) (now : Nat) : MenuRes :=
  match t.find? (fun m => m.id == i && m.deletedAt.isNone) with
  | none => ⟨404, none, t⟩
  | some _ =>
    let t2 := t.map fun m =>
      if m.id == i then { m with deletedAt := some now, updatedAt := now } else m
    ⟨200, t2.find? (fun m => m.id == i), t2⟩

/-- `DELETE /menu/:id/hard-delete` (dist/index.js lines 1692-1744).
Only a row that is already soft-deleted may be physically removed; an
existing but still-active row yields 400 and no mutation; an absent id
yields 404.  On success the pre-removal snapshot is returned. -/
def hardDeleteMenuItem (t : List MenuItem) (i : Nat) : MenuRes :=
  match t.find? (fun m => m.id == i && m.deletedAt.isSome) with
  | some m => ⟨200, some m, t.filter (fun x => !(x.id == i))⟩
  | none =>
    match t.find? (fun m => m.id == i) with
    | none => ⟨404, none, t⟩
    | some _ => ⟨400, none, t⟩

/-- `POST /menu/:id/restore` (dist/index.js lines 1850-1926).  The row
is fetched without the deleted filter; 404 when absent, 400 when it is
not soft-deleted; otherwise `deletedAt` is cleared, `updatedAt` set, and
the restored row re-fetched through the not-deleted filter. -/
def restoreMenuItem (t : List MenuItem) (i : Nat) (now : Nat) : MenuRes :=
  match t.find? (fun m => m.id == i) with
  | none => ⟨404, none, t⟩
  | some m =>
    if m.deletedAt.isNone then ⟨400, none, t⟩
    else
      let t2 := t.map fun x =>
        if x.id == i then { x with deletedAt := none, updatedAt := now } else x
      match t2.find? (fun x => x.id == i && x.deletedAt.isNone) with
      | some r => ⟨200, some r, t2⟩
      | none => ⟨500, none, t2⟩

/-! ## Special routes (dist/index.js) -/

/-- Post-validation body of `POST /special`: the zod default has already
resolved `is_active` to a `Bool` (`true` when omitted) and the ISO date
strings to timestamps. -/
structure SpecialInput where
  name : String
  price : ℚ
  description : String
  is_active : Bool
  valid_from : Option Nat
  valid_to : Option Nat
deriving DecidableEq

/-- The deactivation sweep of `POST /special` (dist/index.js lines
1565-1581): `UPDATE daily_special SET is_active = false WHERE
is_active = true` — note: no `deletedAt` filter, so soft-deleted rows
are swept too. -/
def deactivateAll (t : List Special) : List Special :=
  t.map fun s => if s.is_active then { s with is_active := false } else s

/-- `POST /special` (dist/index.js lines 1530-1641).  If the new special
will be active, every currently active row is deactivated first; then
the row is inserted (auto id, insert-time timestamps) and re-fetched via
`MAX(id)`, which is the new row. -/
def createSpecial (t : List Special) (inp : SpecialInput) (now : Nat) : SpecialRes :=
  let t1 := if inp.is_active then deactivateAll t else t
  let sp : Special :=
    ⟨nextSpecialId t1, inp.name, inp.price, inp.description,
      inp.is_active, inp.valid_from, inp.valid_to, now, now, none⟩
  ⟨201, some sp, t1 ++ [sp]⟩

/-- Post-validation body of `PATCH /special/:id`; the date fields are
doubly optional because the route distinguishes "absent" from an
explicit `null` that clears the date. -/
structure SpecialUpdate where
  name : Option String
  price : Option ℚ
  description : Option String
  is_active : Option Bool
  valid_from : Option (Option Nat)
  valid_to : Option (Option Nat)
deriving DecidableEq

/-- The `updateData` object built by `PATCH /special/:id`
(dist/index.js lines 1316-1352): exactly the provided fields are
written.  `updatedAt` is *not* among them, and the schema default for
`updatedAt` only fires on insert, so an update leaves it unchanged. -/
def applySpecialUpdate (u : SpecialUpdate) (s : Special) : Special :=
  { s with
    name := u.name.getD s.name
    price := u.price.getD s.price
    description := u.description.getD s.description
    is_active := u.is_active.getD s.is_active
    valid_from := u.valid_from.getD s.valid_from
    valid_to := u.valid_to.getD s.valid_to }

/-- `PATCH /special/:id` (dist/index.js lines 1248-1385).  Lookup
excludes soft-deleted rows (404).  When the update sets
`is_active = true`, every *other* row with `is_active = true` is swept
inactive first (again with no `deletedAt` filter).  Then `updateData` is
applied to the row and the row re-fetched without any filter. -/
def updateSpecial (t : List Special) (i : Nat) (u : SpecialUpdate) : SpecialRes :=
  match t.find? (fun s => s.id == i && s.deletedAt.isNone) with
  | none => ⟨404, none, t⟩
  | some _ =>
    let t1 :=
      if u.is_active = some true then
        t.map fun s =>
          if s.is_active && !(s.id == i) then { s with is_active := false } else s
      else t
    let t2 := t1.map fun s => if s.id == i then applySpecialUpdate u s else s
    match t2.find? (fun s => s.id == i) with
    | some r => ⟨200, some r, t2⟩
    | none => ⟨500, none, t2⟩

/-- `DELETE /special/:id` — soft delete (dist/index.js lines 1746-1794),
same logic as the menu-item variant. -/
def softDeleteSpecial (t : List Special) (i : Nat) (now : Nat) : SpecialRes :=
  match t.find? (fun s => s.id == i && s.deletedAt.isNone) with
  | none => ⟨404, none, t⟩
  | some _ =>
    let t2 := t.map fun s =>
      if s.id == i then { s with deletedAt := some now, updatedAt := now } else s
    ⟨200, t2.find? (fun s => s.id == i), t2⟩

/-- `DELETE /special/:id/hard-delete` (dist/index.js lines 1796-1848),
same logic as the menu-item variant. -/
def hardDeleteSpecial (t : List Special) (i : Nat) : SpecialRes :=
  match t.find? (fun s => s.id == i && s.deletedAt.isSome) with
  | some s => ⟨200, some s, t.filter (fun x => !(x.id == i))⟩
  | none =>
    match t.find? (fun s => s.id == i) with
    | none => ⟨404, none, t⟩
    | some _ => ⟨400, none, t⟩

/-! ## The special request surface and reachable states -/

/-- The write operations the server exposes on `daily_special`. -/
inductive SpecialOp where
  | create (inp : SpecialInput) (now : Nat)
  | update (i : Nat) (u : SpecialUpdate)
  | softDelete (i : Nat) (now : Nat)
  | hardDelete (i : Nat)
deriving DecidableEq

def applySpecialOp (t : List Special) : SpecialOp → List Special
  | .create inp now => (createSpecial t inp now).store
  | .update i u => (updateSpecial t i u).store
  | .softDelete i now => (softDeleteSpecial t i now).store
  | .hardDelete i => (hardDeleteSpecial t i).store

/-- Table states reachable from the empty table via the exposed write
operations. -/
inductive SpecialReachable : List Special → Prop where
  | init : SpecialReachable []
  | step (t : List Special) (op : SpecialOp) :
      SpecialReachable t → SpecialReachable (applySpecialOp t op)

/-- A request against the special resource, *including* the restore
request shape that exists for menu items. -/
inductive SpecialRequest where
  | create (inp : SpecialInput) (now : Nat)
  | update (i : Nat) (u : SpecialUpdate)
  | softDelete (i : Nat) (now : Nat)
  | hardDelete (i : Nat)
  | restore (i : Nat) (now : Nat)
deriving DecidableEq

/-- The routing table of dist/index.js for the special resource.  There
is no `/special/:id/restore` route; such a request falls through every
registered route into the catch-all handler (dist/index.js lines
1927-1930), which answers 404 "Route not found" and touches nothing. -/
def routeSpecial (t : List Special) : SpecialRequest → SpecialRes
  | .create inp now => createSpecial t inp now
  | .update i u => updateSpecial t i u
  | .softDelete i now => softDeleteSpecial t i now
  | .hardDelete i => hardDeleteSpecial t i
  | .restore _ _ => ⟨404, none, t⟩

/-! ## Store-hours upsert (dist/index.js lines 1386-1452) -/

/-- Raw `PATCH /hours` body: seven optional day strings. -/
structure HoursBody where
  monday : Option String
  tuesday : Option String
  wednesday : Option String
  thursday : Option String
  friday : Option String
  saturday : Option String
  sunday : Option String
deriving DecidableEq

def hoursFields (b : HoursBody) : List (Option String) :=
  [b.monday, b.tuesday, b.wednesday, b.thursday, b.friday, b.saturday, b.sunday]

/-- An absent day field passes; a present one must satisfy
`hoursDaySchema`. -/
def dayFieldOk : Option String → Bool
  | none => true
  | some s => hoursDayAccepts s

/-- The zod transform stores the trimmed string. -/
def trimDay : Option String → Option String
  | none => none
  | some s => some (String.mk (jsTrim s.toList))

/-- `PATCH /hours`: reject (400) when some provided field fails
validation or when no field is provided at all; update only the
provided fields of an existing record (200); otherwise create the
single record, defaulting every unspecified day to `'Closed'` (201). -/
def patchHours (st : Option StoreHours) (b : HoursBody) :
    Nat × Option StoreHours :=
  if !(hoursFields b).all dayFieldOk then (400, st)
  else if (hoursFields b).all Option.isNone then (400, st)
  else
    match st with
    | some h =>
      (200, some { h with
        monday := (trimDay b.monday).getD h.monday
        tuesday := (trimDay b.tuesday).getD h.tuesday
        wednesday := (trimDay b.wednesday).getD h.wednesday
        thursday := (trimDay b.thursday).getD h.thursday
        friday := (trimDay b.friday).getD h.friday
        saturday := (trimDay b.saturday).getD h.saturday
        sunday := (trimDay b.sunday).getD h.sunday })
    | none =>
      (201, some
        ⟨1,
          (trimDay b.monday).getD "Closed",
          (trimDay b.tuesday).getD "Closed",
          (trimDay b.wednesday).getD "Closed",
          (trimDay b.thursday).getD "Closed",
          (trimDay b.friday).getD "Closed",
          (trimDay b.saturday).getD "Closed",
          (trimDay b.sunday).getD "Closed"⟩)

example : isValidHoursFormat "6am - 8pm" = true := by decide
example : isValidHoursFormat "07:00 - 19:00" = true := by decide
example : isValidHoursFormat "0700-1900" = true := by decide
example : isValidHoursFormat "Closed" = true := by decide
example : isValidHoursFormat "24/7" = true := by decide
example : isValidHoursFormat "13am - 8pm" = false := by decide
example : isValidHoursFormat "25:00 - 26:00" = false := by decide
example : isValidHoursFormat "random text" = false := by decide
example : isValidHoursFormat "open 24 hours" = true := by decide
example : isValidHoursFormat "9 AM - 5 PM" = true := by decide
example : isValidHoursFormat "7.00 - 19.00" = true := by decide
example : isValidHoursFormat "6:00am to 8:00pm" = true := by decide
example : isValidHoursFormat "" = false := by decide
example : hoursDayAccepts "   " = false := by decide

/-! ## Generic list lemmas about unique rows

The SQL tables have a primary key, so every reachable table has
pairwise-distinct ids; these lemmas package what `find?`, `map` and
`filter` do on such a table. -/

theorem find_unique {α : Type} {p : α → Bool} {l : List α} {a : α}
    (ha : a ∈ l) (hp : p a = true)
    (huniq : ∀ b ∈ l, p b = true → b = a) : l.find? p = some a := by
  induction l with
  | nil => cases ha
  | cons x xs ih =>
    by_cases hx : p x = true
    · have hxa : x = a := huniq x (List.mem_cons_self x xs) hx
      subst hxa
      exact List.find?_cons_of_pos _ hx
    · rcases List.mem_cons.mp ha with rfl | ha2
      · exact absurd hp hx
      · rw [List.find?_cons_of_neg _ hx]
        exact ih ha2 fun b hb hpb => huniq b (List.mem_cons_of_mem _ hb) hpb

theorem find_none {α : Type} {p : α → Bool} {l : List α}
    (h : ∀ b ∈ l, ¬ p b = true) : l.find? p = none :=
  List.find?_eq_none.mpr h

/-- Pointwise comparison of filtered lengths across a `map`. -/
theorem filter_map_length_le {α : Type} (f : α → α) (p q : α → Bool)
    (l : List α) (h : ∀ x ∈ l, p (f x) = true → q x = true) :
    ((l.map f).filter p).length ≤ (l.filter q).length := by
  induction l with
  | nil => simp
  | cons x xs ih =>
    have ih2 := ih fun y hy hp => h y (List.mem_cons_of_mem _ hy) hp
    by_cases hpf : p (f x) = true
    · have hq := h x (List.mem_cons_self x xs) hpf
      simp only [List.map_cons, List.filter_cons, hpf, hq, if_true,
        List.length_cons]
      omega
    · have hpf2 : p (f x) = false := by
        revert hpf; cases p (f x) <;> simp
      by_cases hq : q x = true
      · simp only [List.map_cons, List.filter_cons, hpf2, hq, if_true,
          Bool.false_eq_true, if_false, List.length_cons]
        omega
      · have hq2 : q x = false := by
          revert hq; cases q x <;> simp
        simpa only [List.map_cons, List.filter_cons, hpf2, hq2,
          Bool.false_eq_true, if_false] using ih2

/-- In a table with pairwise-distinct ids, a filter whose matches all
carry one fixed id keeps at most one row. -/
theorem filter_length_le_one {α : Type} (idOf : α → Nat) (p : α → Bool)
    (l : List α) (n : Nat) (hnd : (l.map idOf).Nodup)
    (hall : ∀ x ∈ l, p x = true → idOf x = n) :
    (l.filter p).length ≤ 1 := by
  have hnd2 : ((l.filter p).map idOf).Nodup :=
    (List.Sublist.map idOf (List.filter_sublist l)).nodup hnd
  rcases hfl : l.filter p with _ | ⟨a, tl⟩
  · simp
  rcases htl : tl with _ | ⟨b, rest⟩
  · simp
  exfalso
  have ha : a ∈ l.filter p := by rw [hfl]; exact List.mem_cons_self ..
  have hb : b ∈ l.filter p := by rw [hfl, htl]; simp
  have ha2 := List.mem_filter.mp ha
  have hb2 := List.mem_filter.mp hb
  have hida : idOf a = n := hall a ha2.1 ha2.2
  have hidb : idOf b = n := hall b hb2.1 hb2.2
  rw [hfl, htl] at hnd2
  simp only [List.map_cons, List.nodup_cons, List.mem_cons] at hnd2
  exact hnd2.1 (Or.inl (by rw [hida, hidb]))

/-- `find?` after a map that rewrites exactly the row with id `i`. -/
theorem find_map_update {α : Type} (idOf : α → Nat) {l : List α} {m : α}
    {i : Nat} (hnd : (l.map idOf).Nodup) (f : α → α)
    (hm : m ∈ l) (hmid : idOf m = i) (p : α → Bool) (hpf : p (f m) = true)
    (hpid : ∀ b, p b = true → idOf b = i) :
    (l.map fun x => if idOf x == i then f x else x).find? p = some (f m) := by
  refine find_unique (List.mem_map.mpr ⟨m, hm, ?_⟩) hpf ?_
  · simp only [hmid, beq_self_eq_true, if_true]
  · intro b hb hpb
    rcases List.mem_map.mp hb with ⟨y, hy, hgy⟩
    by_cases hyi : idOf y = i
    · have hym : y = m := List.inj_on_of_nodup_map hnd hy hm (by rw [hyi, hmid])
      rw [← hgy, if_pos (by simp [hyi]), hym]
    · rw [if_neg (by simp [hyi])] at hgy
      exact absurd (hpid b hpb) (hgy ▸ hyi)

/-- `find?` misses after a map that rewrites exactly the row with id `i`
when the rewritten row fails the predicate and the predicate only
matches rows with id `i`. -/
theorem find_map_none {α : Type} (idOf : α → Nat) {l : List α} {m : α}
    {i : Nat} (hnd : (l.map idOf).Nodup) (f : α → α)
    (hm : m ∈ l) (hmid : idOf m = i) (p : α → Bool)
    (hpfm : ¬ p (f m) = true) (hpid : ∀ b, p b = true → idOf b = i) :
    (l.map fun x => if idOf x == i then f x else x).find? p = none := by
  apply find_none
  intro b hb hpb
  rcases List.mem_map.mp hb with ⟨y, hy, hgy⟩
  by_cases hyi : idOf y = i
  · have hym : y = m := List.inj_on_of_nodup_map hnd hy hm (by rw [hyi, hmid])
    rw [if_pos (by simp [hyi]), hym] at hgy
    exact hpfm (hgy ▸ hpb)
  · rw [if_neg (by simp [hyi])] at hgy
    exact hyi (hgy ▸ hpid b hpb)

/-- Rewriting one row through an id-preserving function leaves the id
column of the table unchanged. -/
theorem map_ids_of_update {α : Type} (idOf : α → Nat) (l : List α) (i : Nat)
    (f : α → α) (hidf : ∀ x, idOf (f x) = idOf x) :
    (l.map fun x => if idOf x == i then f x else x).map idOf = l.map idOf := by
  rw [List.map_map]
  apply List.map_congr_left
  intro x _
  by_cases h : idOf x = i
  · simp [Function.comp, h, hidf]
  · simp [Function.comp, h]

/-- Any row-wise id-preserving rewrite leaves the id column unchanged. -/
theorem map_ids_pres {α : Type} (idOf : α → Nat) (l : List α) (g : α → α)
    (h : ∀ x, idOf (g x) = idOf x) :
    (l.map g).map idOf = l.map idOf := by
  rw [List.map_map]
  exact List.map_congr_left fun x _ => h x

/-- In a nodup-ids table, any member with the right id is the unique
witness for id-based predicates. -/
theorem menu_row_eq {t : List MenuItem} {m x : MenuItem}
    (hnd : (t.map MenuItem.id).Nodup) (hm : m ∈ t) (hx : x ∈ t)
    (h : x.id = m.id) : x = m :=
  List.inj_on_of_nodup_map hnd hx hm h

theorem special_row_eq {t : List Special} {m x : Special}
    (hnd : (t.map Special.id).Nodup) (hm : m ∈ t) (hx : x ∈ t)
    (h : x.id = m.id) : x = m :=
  List.inj_on_of_nodup_map hnd hx hm h

/-- In a nodup-ids menu table, the not-deleted lookup of an active row
finds exactly that row. -/
theorem menu_find_active {t : List MenuItem} {m : MenuItem} {i : Nat}
    (hnd : (t.map MenuItem.id).Nodup) (hm : m ∈ t) (hid : m.id = i)
    (hact : m.deletedAt = none) :
    t.find? (fun x => x.id == i && x.deletedAt.isNone) = some m := by
  apply find_unique hm
  · simp [hid, hact]
  · intro b hb hpb
    simp only [Bool.and_eq_true, beq_iff_eq] at hpb
    exact menu_row_eq hnd hm hb (by rw [hpb.1, hid])

theorem special_find_active {t : List Special} {s : Special} {j : Nat}
    (hnd : (t.map Special.id).Nodup) (hs : s ∈ t) (hid : s.id = j)
    (hact : s.deletedAt = none) :
    t.find? (fun x => x.id == j && x.deletedAt.isNone) = some s := by
  apply find_unique hs
  · simp [hid, hact]
  · intro b hb hpb
    simp only [Bool.and_eq_true, beq_iff_eq] at hpb
    exact special_row_eq hnd hs hb (by rw [hpb.1, hid])

/-! ### Step lemmas: how each handler unfolds once its lookups are known -/

theorem softDeleteMenuItem_found {t : List MenuItem} {i : Nat} (now : Nat)
    {m : MenuItem}
    (h : t.find? (fun x => x.id == i && x.deletedAt.isNone) = some m) :
    softDeleteMenuItem t i now =
      ⟨200,
        (t.map fun x =>
          if x.id == i then { x with deletedAt := some now, updatedAt := now }
          else x).find? (fun x => x.id == i),
        t.map fun x =>
          if x.id == i then { x with deletedAt := some now, updatedAt := now }
          else x⟩ := by
  unfold softDeleteMenuItem
  rw [h]

theorem softDeleteMenuItem_missing {t : List MenuItem} {i : Nat} (now : Nat)
    (h : t.find? (fun x => x.id == i && x.deletedAt.isNone) = none) :
    softDeleteMenuItem t i now = ⟨404, none, t⟩ := by
  unfold softDeleteMenuItem
  rw [h]

theorem restoreMenuItem_deleted {t : List MenuItem} {i now : Nat}
    {m r : MenuItem} (h1 : t.find? (fun x => x.id == i) = some m)
    (h2 : m.deletedAt.isNone = false)
    (h3 : (t.map fun x =>
        if x.id == i then { x with deletedAt := none, updatedAt := now }
        else x).find? (fun x => x.id == i && x.deletedAt.isNone) = some r) :
    restoreMenuItem t i now =
      ⟨200, some r,
        t.map fun x =>
          if x.id == i then { x with deletedAt := none, updatedAt := now }
          else x⟩ := by
  unfold restoreMenuItem
  rw [h1]
  simp only [h2, Bool.false_eq_true, if_false, h3]

theorem softDeleteSpecial_found {t : List Special} {i : Nat} (now : Nat)
    {s : Special}
    (h : t.find? (fun x => x.id == i && x.deletedAt.isNone) = some s) :
    softDeleteSpecial t i now =
      ⟨200,
        (t.map fun x =>
          if x.id == i then { x with deletedAt := some now, updatedAt := now }
          else x).find? (fun x => x.id == i),
        t.map fun x =>
          if x.id == i then { x with deletedAt := some now, updatedAt := now }
          else x⟩ := by
  unfold softDeleteSpecial
  rw [h]

theorem softDeleteSpecial_missing {t : List Special} {i : Nat} (now : Nat)
    (h : t.find? (fun x => x.id == i && x.deletedAt.isNone) = none) :
    softDeleteSpecial t i now = ⟨404, none, t⟩ := by
  unfold softDeleteSpecial
  rw [h]

theorem updateMenuItem_missing {t : List MenuItem} {i : Nat}
    {u : MenuUpdate} {now : Nat}
    (h : t.find? (fun x => x.id == i && x.deletedAt.isNone) = none) :
    updateMenuItem t i u now = ⟨404, none, t⟩ := by
  unfold updateMenuItem
  rw [h]

theorem updateSpecial_found {t : List Special} {i : Nat} {u : SpecialUpdate}
    {s : Special}
    (h : t.find? (fun x => x.id == i && x.deletedAt.isNone) = some s) :
    updateSpecial t i u =
      (let t1 :=
        if u.is_active = some true then
          t.map fun x =>
            if x.is_active && !(x.id == i) then { x with is_active := false }
            else x
        else t
      let t2 := t1.map fun x => if x.id == i then applySpecialUpdate u x else x
      match t2.find? (fun x => x.id == i) with
      | some r => ⟨200, some r, t2⟩
      | none => ⟨500, none, t2⟩) := by
  unfold updateSpecial
  rw [h]

theorem updateSpecial_missing {t : List Special} {i : Nat} {u : SpecialUpdate}
    (h : t.find? (fun x => x.id == i && x.deletedAt.isNone) = none) :
    updateSpecial t i u = ⟨404, none, t⟩ := by
  unfold updateSpecial
  rw [h]

/-- Whatever the re-fetch finds, the store after a found
`PATCH /special/:id` is the sweep followed by the row merge. -/
theorem updateSpecial_store {t : List Special} {j : Nat} {u : SpecialUpdate}
    {s : Special}
    (h : t.find? (fun x => x.id == j && x.deletedAt.isNone) = some s) :
    (updateSpecial t j u).store =
      ((if u.is_active = some true then
          t.map fun x =>
            if x.is_active && !(x.id == j) then { x with is_active := false }
            else x
        else t).map fun x => if x.id == j then applySpecialUpdate u x else x) := by
  simp only [updateSpecial, h]
  rcases hf : ((if u.is_active = some true then
      t.map fun x =>
        if x.is_active && !(x.id == j) then { x with is_active := false }
        else x
    else t).map fun x => if x.id == j then applySpecialUpdate u x else x).find?
      (fun x => x.id == j) with _ | r <;> simp only [hf]

/-! ## Claim C2: the hard-delete guard -/

/-- C2.  For every record (MenuItem or Special) in a table with
pairwise-distinct ids: hard delete of a row that is `ACTIVE`
(`deletedAt = null`) fails with 400 and changes nothing; hard delete of
an absent id fails with 404 and changes nothing; hard delete of a
soft-deleted row removes exactly that row and returns its pre-deletion
snapshot. -/
theorem c2_hard_delete_guard
    (tm : List MenuItem) (ts : List Special) (i j : Nat)
    (hndm : (tm.map MenuItem.id).Nodup)
    (hnds : (ts.map Special.id).Nodup) :
    (∀ m ∈ tm, m.id = i → m.deletedAt = none →
      (hardDeleteMenuItem tm i).status = 400 ∧
      (hardDeleteMenuItem tm i).store = tm ∧
      (hardDeleteMenuItem tm i).body = none) ∧
    ((∀ m ∈ tm, m.id ≠ i) →
      (hardDeleteMenuItem tm i).status = 404 ∧
      (hardDeleteMenuItem tm i).store = tm) ∧
    (∀ m ∈ tm, m.id = i → m.deletedAt ≠ none →
      (hardDeleteMenuItem tm i).status = 200 ∧
      (hardDeleteMenuItem tm i).body = some m ∧
      (hardDeleteMenuItem tm i).store = tm.filter (fun x => !(x.id == i))) ∧
    (∀ s ∈ ts, s.id = j → s.deletedAt = none →
      (hardDeleteSpecial ts j).status = 400 ∧
      (hardDeleteSpecial ts j).store = ts ∧
      (hardDeleteSpecial ts j).body = none) ∧
    ((∀ s ∈ ts, s.id ≠ j) →
      (hardDeleteSpecial ts j).status = 404 ∧
      (hardDeleteSpecial ts j).store = ts) ∧
    (∀ s ∈ ts, s.id = j → s.deletedAt ≠ none →
      (hardDeleteSpecial ts j).status = 200 ∧
      (hardDeleteSpecial ts j).body = some s ∧
      (hardDeleteSpecial ts j).store = ts.filter (fun x => !(x.id == j))) := by
  refine ⟨?_, ?_, ?_, ?_, ?_, ?_⟩
  · intro m hm hid hact
    have h1 : tm.find? (fun x => x.id == i && x.deletedAt.isSome) = none := by
      apply find_none
      intro b hb
      simp only [Bool.and_eq_true, beq_iff_eq, not_and]
      intro hbid hbs
      have hbm : b = m := menu_row_eq hndm hm hb (by rw [hbid, hid])
      rw [hbm, hact] at hbs
      simp at hbs
    have h2 : (tm.find? fun x => x.id == i).isSome :=
      List.find?_isSome.mpr ⟨m, hm, by simp [hid]⟩
    obtain ⟨x, hx⟩ := Option.isSome_iff_exists.mp h2
    refine ⟨?_, ?_, ?_⟩ <;> simp [hardDeleteMenuItem, h1, hx]
  · intro hno
    have h1 : tm.find? (fun x => x.id == i && x.deletedAt.isSome) = none := by
      apply find_none
      intro b hb
      simp [hno b hb]
    have h2 : tm.find? (fun x => x.id == i) = none := by
      apply find_none
      intro b hb
      simp [hno b hb]
    refine ⟨?_, ?_⟩ <;> simp [hardDeleteMenuItem, h1, h2]
  · intro m hm hid hdel
    have h1 : tm.find? (fun x => x.id == i && x.deletedAt.isSome) = some m := by
      apply find_unique hm
      · simp only [Bool.and_eq_true, beq_iff_eq]
        exact ⟨hid, Option.isSome_iff_ne_none.mpr hdel⟩
      · intro b hb hpb
        simp only [Bool.and_eq_true, beq_iff_eq] at hpb
        exact menu_row_eq hndm hm hb (by rw [hpb.1, hid])
    refine ⟨?_, ?_, ?_⟩ <;> simp [hardDeleteMenuItem, h1]
  · intro s hs hid hact
    have h1 : ts.find? (fun x => x.id == j && x.deletedAt.isSome) = none := by
      apply find_none
      intro b hb
      simp only [Bool.and_eq_true, beq_iff_eq, not_and]
      intro hbid hbs
      have hbm : b = s := special_row_eq hnds hs hb (by rw [hbid, hid])
      rw [hbm, hact] at hbs
      simp at hbs
    have h2 : (ts.find? fun x => x.id == j).isSome :=
      List.find?_isSome.mpr ⟨s, hs, by simp [hid]⟩
    obtain ⟨x, hx⟩ := Option.isSome_iff_exists.mp h2
    refine ⟨?_, ?_, ?_⟩ <;> simp [hardDeleteSpecial, h1, hx]
  · intro hno
    have h1 : ts.find? (fun x => x.id == j && x.deletedAt.isSome) = none := by
      apply find_none
      intro b hb
      simp [hno b hb]
    have h2 : ts.find? (fun x => x.id == j) = none := by
      apply find_none
      intro b hb
      simp [hno b hb]
    refine ⟨?_, ?_⟩ <;> simp [hardDeleteSpecial, h1, h2]
  · intro s hs hid hdel
    have h1 : ts.find? (fun x => x.id == j && x.deletedAt.isSome) = some s := by
      apply find_unique hs
      · simp only [Bool.and_eq_true, beq_iff_eq]
        exact ⟨hid, Option.isSome_iff_ne_none.mpr hdel⟩
      · intro b hb hpb
        simp only [Bool.and_eq_true, beq_iff_eq] at hpb
        exact special_row_eq hnds hs hb (by rw [hpb.1, hid])
    refine ⟨?_, ?_, ?_⟩ <;> simp [hardDeleteSpecial, h1]

/-- Concrete two-row menu table for witnesses: row 1 active, row 2
soft-deleted. -/
def wMenuA : MenuItem := ⟨1, "Latte", 4, "Milky espresso drink", 0, 0, none⟩

def wMenuD : MenuItem := ⟨2, "Mocha", 5, "Chocolate espresso drink", 0, 0, some 3⟩

def wMenuTab : List MenuItem := [wMenuA, wMenuD]

/-- Concrete two-row special table for witnesses: row 1 active (in the
lifecycle sense) and flagged active, row 2 soft-deleted. -/
def wSpecA : Special :=
  ⟨1, "Morning deal", 3, "Cheap morning espresso", true, none, none, 0, 0, none⟩

def wSpecD : Special :=
  ⟨2, "Old deal", 2, "Expired special offer", false, none, none, 0, 0, some 3⟩

def wSpecTab : List Special := [wSpecA, wSpecD]

/-- Witness for C2, instantiating every hypothesis of
`c2_hard_delete_guard` on the concrete tables. -/
theorem c2_hard_delete_guard_witness :
    (hardDeleteMenuItem wMenuTab 1).status = 400 ∧
    (hardDeleteMenuItem wMenuTab 1).store = wMenuTab ∧
    (hardDeleteMenuItem wMenuTab 7).status = 404 ∧
    (hardDeleteMenuItem wMenuTab 2).status = 200 ∧
    (hardDeleteMenuItem wMenuTab 2).body = some wMenuD ∧
    (hardDeleteSpecial wSpecTab 1).status = 400 ∧
    (hardDeleteSpecial wSpecTab 1).store = wSpecTab ∧
    (hardDeleteSpecial wSpecTab 2).status = 200 ∧
    (hardDeleteSpecial wSpecTab 2).body = some wSpecD := by
  have h1 := c2_hard_delete_guard wMenuTab wSpecTab 1 1 (by decide) (by decide)
  have h2 := c2_hard_delete_guard wMenuTab wSpecTab 7 2 (by decide) (by decide)
  have h3 := c2_hard_delete_guard wMenuTab wSpecTab 2 2 (by decide) (by decide)
  have ha := h1.1 wMenuA (by decide) rfl rfl
  have hb := h2.2.1 (by decide)
  have hc := h3.2.2.1 wMenuD (by decide) rfl (by decide)
  have hd := h1.2.2.2.1 wSpecA (by decide) rfl rfl
  have he := h3.2.2.2.2.2 wSpecD (by decide) rfl (by decide)
  exact ⟨ha.1, ha.2.1, hb.1, hc.1, hc.2.1, hd.1, hd.2.1, he.1, he.2.1⟩

/-! ## Claim C6: restore round-trip -/

/-- C6.  Soft-deleting an `ACTIVE` menu item and then restoring it
returns (with 200) a record identical to the pre-delete state in every
field except that `updatedAt` is moved to the restore time; in
particular `deletedAt` is `null` again and `createdAt` is unchanged. -/
theorem c6_restore_roundtrip (t : List MenuItem) (i now1 now2 : Nat)
    (m : MenuItem) (hnd : (t.map MenuItem.id).Nodup) (hm : m ∈ t)
    (hid : m.id = i) (hact : m.deletedAt = none) :
    (restoreMenuItem (softDeleteMenuItem t i now1).store i now2).status = 200 ∧
    (restoreMenuItem (softDeleteMenuItem t i now1).store i now2).body =
      some { m with updatedAt := now2 } := by
  have hfind := menu_find_active hnd hm hid hact
  rw [softDeleteMenuItem_found now1 hfind]
  have hnd1 : ((t.map fun x =>
      if x.id == i then { x with deletedAt := some now1, updatedAt := now1 }
      else x).map MenuItem.id).Nodup := by
    rw [map_ids_of_update MenuItem.id t i
      (fun x => { x with deletedAt := some now1, updatedAt := now1 })
      (fun x => rfl)]
    exact hnd
  have hmem1 : ({ m with deletedAt := some now1, updatedAt := now1 } : MenuItem) ∈
      t.map fun x =>
        if x.id == i then { x with deletedAt := some now1, updatedAt := now1 }
        else x :=
    List.mem_map.mpr ⟨m, hm, by simp [hid]⟩
  have hfind1 : (t.map fun x =>
      if x.id == i then { x with deletedAt := some now1, updatedAt := now1 }
      else x).find? (fun x => x.id == i) =
      some { m with deletedAt := some now1, updatedAt := now1 } :=
    find_map_update MenuItem.id hnd
      (fun x => { x with deletedAt := some now1, updatedAt := now1 })
      hm hid _ (by simp [hid]) (by simp)
  have hfind2 : ((t.map fun x =>
      if x.id == i then { x with deletedAt := some now1, updatedAt := now1 }
      else x).map fun x =>
        if x.id == i then { x with deletedAt := none, updatedAt := now2 }
        else x).find? (fun x => x.id == i && x.deletedAt.isNone) =
      some { m with deletedAt := none, updatedAt := now2 } :=
    find_map_update MenuItem.id hnd1
      (fun x => { x with deletedAt := none, updatedAt := now2 })
      hmem1 (by simp [hid]) _ (by simp [hid])
      (by intro b hb; simp only [Bool.and_eq_true, beq_iff_eq] at hb; exact hb.1)
  rw [restoreMenuItem_deleted hfind1 (by simp) hfind2]
  have hrecord : ({ m with deletedAt := none, updatedAt := now2 } : MenuItem) =
      { m with updatedAt := now2 } := by
    cases m
    simp only at hact
    rw [hact]
  rw [hrecord]
  exact ⟨rfl, rfl⟩

/-- Witness for C6 on the concrete menu table. -/
theorem c6_restore_roundtrip_witness :
    (restoreMenuItem (softDeleteMenuItem wMenuTab 1 10).store 1 20).status = 200 ∧
    (restoreMenuItem (softDeleteMenuItem wMenuTab 1 10).store 1 20).body =
      some { wMenuA with updatedAt := 20 } :=
  c6_restore_roundtrip wMenuTab 1 10 20 wMenuA (by decide) (by decide) rfl rfl

/-! ## Claim C7: soft delete is not idempotent -/

/-- C7.  On a table with pairwise-distinct ids, soft-deleting an
`ACTIVE` record (MenuItem or Special) succeeds with 200, sets
`deletedAt` and `updatedAt` and returns the post-transition snapshot;
soft-deleting the same id a second time fails with 404 and leaves the
table exactly as it was after the first call. -/
theorem c7_soft_delete_not_idempotent
    (tm : List MenuItem) (ts : List Special) (i j now1 now2 : Nat)
    (m : MenuItem) (s : Special)
    (hndm : (tm.map MenuItem.id).Nodup) (hnds : (ts.map Special.id).Nodup)
    (hm : m ∈ tm) (hmid : m.id = i) (hmact : m.deletedAt = none)
    (hs : s ∈ ts) (hsid : s.id = j) (hsact : s.deletedAt = none) :
    (softDeleteMenuItem tm i now1).status = 200 ∧
    (softDeleteMenuItem tm i now1).body =
      some { m with deletedAt := some now1, updatedAt := now1 } ∧
    (softDeleteMenuItem (softDeleteMenuItem tm i now1).store i now2).status = 404 ∧
    (softDeleteMenuItem (softDeleteMenuItem tm i now1).store i now2).store =
      (softDeleteMenuItem tm i now1).store ∧
    (softDeleteSpecial ts j now1).status = 200 ∧
    (softDeleteSpecial ts j now1).body =
      some { s with deletedAt := some now1, updatedAt := now1 } ∧
    (softDeleteSpecial (softDeleteSpecial ts j now1).store j now2).status = 404 ∧
    (softDeleteSpecial (softDeleteSpecial ts j now1).store j now2).store =
      (softDeleteSpecial ts j now1).store := by
  have e1 := softDeleteMenuItem_found now1 (menu_find_active hndm hm hmid hmact)
  have hbody : (tm.map fun x =>
      if x.id == i then { x with deletedAt := some now1, updatedAt := now1 }
      else x).find? (fun x => x.id == i) =
      some { m with deletedAt := some now1, updatedAt := now1 } :=
    find_map_update MenuItem.id hndm
      (fun x => { x with deletedAt := some now1, updatedAt := now1 })
      hm hmid _ (by simp [hmid]) (by simp)
  have hnone : (tm.map fun x =>
      if x.id == i then { x with deletedAt := some now1, updatedAt := now1 }
      else x).find? (fun x => x.id == i && x.deletedAt.isNone) = none :=
    find_map_none MenuItem.id hndm
      (fun x => { x with deletedAt := some now1, updatedAt := now1 })
      hm hmid _ (by simp)
      (by intro b hb; simp only [Bool.and_eq_true, beq_iff_eq] at hb; exact hb.1)
  have e2 := softDeleteMenuItem_missing now2 hnone
  have f1 := softDeleteSpecial_found now1 (special_find_active hnds hs hsid hsact)
  have hsbody : (ts.map fun x =>
      if x.id == j then { x with deletedAt := some now1, updatedAt := now1 }
      else x).find? (fun x => x.id == j) =
      some { s with deletedAt := some now1, updatedAt := now1 } :=
    find_map_update Special.id hnds
      (fun x => { x with deletedAt := some now1, updatedAt := now1 })
      hs hsid _ (by simp [hsid]) (by simp)
  have hsnone : (ts.map fun x =>
      if x.id == j then { x with deletedAt := some now1, updatedAt := now1 }
      else x).find? (fun x => x.id == j && x.deletedAt.isNone) = none :=
    find_map_none Special.id hnds
      (fun x => { x with deletedAt := some now1, updatedAt := now1 })
      hs hsid _ (by simp)
      (by intro b hb; simp only [Bool.and_eq_true, beq_iff_eq] at hb; exact hb.1)
  have f2 := softDeleteSpecial_missing now2 hsnone
  simp only [e1, e2, f1, f2, hbody, hsbody]
  refine ⟨?_, ?_, ?_, ?_, ?_, ?_, ?_, ?_⟩ <;> trivial

/-- Witness for C7 on the concrete tables. -/
theorem c7_soft_delete_not_idempotent_witness :
    (softDeleteMenuItem wMenuTab 1 10).status = 200 ∧
    (softDeleteMenuItem wMenuTab 1 10).body =
      some { wMenuA with deletedAt := some 10, updatedAt := 10 } ∧
    (softDeleteMenuItem (softDeleteMenuItem wMenuTab 1 10).store 1 20).status = 404 ∧
    (softDeleteMenuItem (softDeleteMenuItem wMenuTab 1 10).store 1 20).store =
      (softDeleteMenuItem wMenuTab 1 10).store ∧
    (softDeleteSpecial wSpecTab 1 10).status = 200 ∧
    (softDeleteSpecial wSpecTab 1 10).body =
      some { wSpecA with deletedAt := some 10, updatedAt := 10 } ∧
    (softDeleteSpecial (softDeleteSpecial wSpecTab 1 10).store 1 20).status = 404 ∧
    (softDeleteSpecial (softDeleteSpecial wSpecTab 1 10).store 1 20).store =
      (softDeleteSpecial wSpecTab 1 10).store :=
  c7_soft_delete_not_idempotent wMenuTab wSpecTab 1 1 10 20 wMenuA wSpecA
    (by decide) (by decide) (by decide) rfl rfl (by decide) rfl rfl

/-! ## Claim C5: what an update touches -/

/-- A successful `PATCH /menu/:id` on the active row `m` returns the
field-merged record with `updatedAt` explicitly touched. -/
theorem updateMenuItem_body {t : List MenuItem} {i : Nat} {u : MenuUpdate}
    {now : Nat} {m : MenuItem} (hnd : (t.map MenuItem.id).Nodup)
    (hm : m ∈ t) (hmid : m.id = i) (hmact : m.deletedAt = none)
    (h200 : (updateMenuItem t i u now).status = 200) :
    (updateMenuItem t i u now).body = some (applyMenuUpdate u now m) := by
  have hfind := menu_find_active hnd hm hmid hmact
  have hfind2 : (t.map fun x =>
      if x.id == i then applyMenuUpdate u now x else x).find?
      (fun x => x.id == i && x.deletedAt.isNone) =
      some (applyMenuUpdate u now m) :=
    find_map_update MenuItem.id hnd (applyMenuUpdate u now) hm hmid _
      (by simp [applyMenuUpdate, hmid, hmact])
      (by intro b hb; simp only [Bool.and_eq_true, beq_iff_eq] at hb; exact hb.1)
  cases hun : u.name with
  | none =>
    simp only [updateMenuItem, hfind, hun, hfind2, Bool.false_eq_true, if_false]
  | some n =>
    by_cases hc : (t.any (fun x => (x.deletedAt.isNone && !(x.id == i)) &&
        lowerAscii x.name == lowerAscii n) ||
        t.any (fun x => !(x.id == i) && x.name == n)) = true
    · exfalso
      simp only [updateMenuItem, hfind, hun, hc, if_true] at h200
      exact absurd h200 (by decide)
    · simp only [updateMenuItem, hfind, hun, hc, if_false, hfind2]
      simp only [Bool.not_eq_true] at hc
      simp [hc]

/-- `PATCH /special/:id` on an existing active row `s` always succeeds
and returns `updateData` merged into `s`; in particular `updatedAt` is
not among the written fields and stays at its pre-update value. -/
theorem updateSpecial_ok {t : List Special} {j : Nat} (u : SpecialUpdate)
    {s : Special} (hnd : (t.map Special.id).Nodup)
    (hs : s ∈ t) (hsid : s.id = j) (hsact : s.deletedAt = none) :
    (updateSpecial t j u).status = 200 ∧
    (updateSpecial t j u).body = some (applySpecialUpdate u s) := by
  have hfind := special_find_active hnd hs hsid hsact
  by_cases hua : u.is_active = some true
  · have hmem1 : s ∈ t.map fun x =>
        if x.is_active && !(x.id == j) then { x with is_active := false }
        else x :=
      List.mem_map.mpr ⟨s, hs, by simp [hsid]⟩
    have hnd1 : ((t.map fun x =>
        if x.is_active && !(x.id == j) then { x with is_active := false }
        else x).map Special.id).Nodup := by
      rw [map_ids_pres Special.id t _
        (fun x => by by_cases h : (x.is_active && !(x.id == j)) = true <;> simp [h])]
      exact hnd
    have hfind2 : ((t.map fun x =>
        if x.is_active && !(x.id == j) then { x with is_active := false }
        else x).map fun x =>
          if x.id == j then applySpecialUpdate u x else x).find?
        (fun x => x.id == j) = some (applySpecialUpdate u s) :=
      find_map_update Special.id hnd1 (applySpecialUpdate u) hmem1 hsid _
        (by simp [applySpecialUpdate, hsid]) (by simp)
    simp only [updateSpecial, hfind, hua, if_pos, hfind2]
    refine ⟨?_, ?_⟩ <;> trivial
  · have hfind2 : (t.map fun x =>
        if x.id == j then applySpecialUpdate u x else x).find?
        (fun x => x.id == j) = some (applySpecialUpdate u s) :=
      find_map_update Special.id hnd (applySpecialUpdate u) hs hsid _
        (by simp [applySpecialUpdate, hsid]) (by simp)
    simp only [updateSpecial, hfind, if_neg hua, hfind2]
    refine ⟨?_, ?_⟩ <;> trivial

/-- Counterexample input for C5: the table holding only the active
special `wSpecA` (whose `updatedAt` is 0), updated with a new price. -/
def wSpecPriceUpd : SpecialUpdate := ⟨none, some 6, none, none, none, none⟩

/-- Counterexample for C5: a successful `PATCH /special/:id` does *not*
touch `updatedAt` — the returned (and stored) record still carries the
pre-update `updatedAt` of `wSpecA`, refuting "updatedAt is always
touched" for Specials (the route's `updateData` never contains
`updatedAt`, and the schema default only fires on insert). -/
theorem c5_update_timestamps_cex :
    (updateSpecial [wSpecA] 1 wSpecPriceUpd).status = 200 ∧
    ((updateSpecial [wSpecA] 1 wSpecPriceUpd).body).map Special.updatedAt =
      some wSpecA.updatedAt ∧
    ¬ (∀ r, (updateSpecial [wSpecA] 1 wSpecPriceUpd).body = some r →
        r.updatedAt ≠ wSpecA.updatedAt) := by
  refine ⟨by decide, by decide, ?_⟩
  intro h
  exact h { wSpecA with price := 6 } (by decide) (by decide)

/-- C5 (amended).  For every successful update on an `ACTIVE` record in
a nodup-ids table: a *menu-item* update stores the field merge with
`updatedAt` set to the operation time, `createdAt` unchanged and every
field not named in the patch unchanged; a *special* update stores the
field merge with `createdAt` and every unnamed field unchanged, but —
unlike the claim — leaves `updatedAt` at its pre-update value. -/
theorem c5_update_touches_amended
    (tm : List MenuItem) (ts : List Special) (i j now : Nat)
    (um : MenuUpdate) (us : SpecialUpdate) (m : MenuItem) (s : Special)
    (hndm : (tm.map MenuItem.id).Nodup) (hnds : (ts.map Special.id).Nodup)
    (hm : m ∈ tm) (hmid : m.id = i) (hmact : m.deletedAt = none)
    (hs : s ∈ ts) (hsid : s.id = j) (hsact : s.deletedAt = none)
    (hm200 : (updateMenuItem tm i um now).status = 200) :
    (updateMenuItem tm i um now).body = some (applyMenuUpdate um now m) ∧
    (applyMenuUpdate um now m).updatedAt = now ∧
    (applyMenuUpdate um now m).createdAt = m.createdAt ∧
    (applyMenuUpdate um now m).deletedAt = m.deletedAt ∧
    (um.name = none → (applyMenuUpdate um now m).name = m.name) ∧
    (um.price = none → (applyMenuUpdate um now m).price = m.price) ∧
    (um.description = none →
      (applyMenuUpdate um now m).description = m.description) ∧
    (updateSpecial ts j us).status = 200 ∧
    (updateSpecial ts j us).body = some (applySpecialUpdate us s) ∧
    (applySpecialUpdate us s).updatedAt = s.updatedAt ∧
    (applySpecialUpdate us s).createdAt = s.createdAt ∧
    (applySpecialUpdate us s).deletedAt = s.deletedAt ∧
    (us.name = none → (applySpecialUpdate us s).name = s.name) ∧
    (us.price = none → (applySpecialUpdate us s).price = s.price) ∧
    (us.description = none →
      (applySpecialUpdate us s).description = s.description) ∧
    (us.is_active = none → (applySpecialUpdate us s).is_active = s.is_active) ∧
    (us.valid_from = none →
      (applySpecialUpdate us s).valid_from = s.valid_from) ∧
    (us.valid_to = none → (applySpecialUpdate us s).valid_to = s.valid_to) := by
  have hsp := updateSpecial_ok us hnds hs hsid hsact
  refine ⟨updateMenuItem_body hndm hm hmid hmact hm200, rfl, rfl, rfl,
    ?_, ?_, ?_, hsp.1, hsp.2, rfl, rfl, rfl, ?_, ?_, ?_, ?_, ?_, ?_⟩ <;>
    intro h <;> simp [applyMenuUpdate, applySpecialUpdate, h]

/-- Witness for C5 (amended) on the concrete tables: rename the menu
item, reprice the special. -/
theorem c5_update_touches_amended_witness :
    (updateMenuItem wMenuTab 1 ⟨some "Flat white", none, none⟩ 10).body =
      some (applyMenuUpdate ⟨some "Flat white", none, none⟩ 10 wMenuA) ∧
    (updateSpecial wSpecTab 1 wSpecPriceUpd).status = 200 ∧
    (updateSpecial wSpecTab 1 wSpecPriceUpd).body =
      some (applySpecialUpdate wSpecPriceUpd wSpecA) ∧
    (applySpecialUpdate wSpecPriceUpd wSpecA).updatedAt = wSpecA.updatedAt := by
  have h := c5_update_touches_amended wMenuTab wSpecTab 1 1 10
    ⟨some "Flat white", none, none⟩ wSpecPriceUpd wMenuA wSpecA
    (by decide) (by decide) (by decide) rfl rfl (by decide) rfl rfl (by decide)
  exact ⟨h.1, h.2.2.2.2.2.2.2.1, h.2.2.2.2.2.2.2.2.1, h.2.2.2.2.2.2.2.2.2.1⟩

/-! ## Claim C3: name reuse after soft delete -/

/-- A soft-deleted menu item named `Espresso`. -/
def wEspressoDel : MenuItem := ⟨1, "Espresso", 3, "Rich espresso shot", 0, 0, some 5⟩

/-- Counterexample for C3: in a table whose only row is the
soft-deleted `Espresso`, creating a new item with the byte-identical
name `Espresso` does not succeed — the insert trips the physical
`UNIQUE(name)` constraint (which ignores `deletedAt`) and yields 409
with no mutation, even though no non-deleted row carries the name. -/
theorem c3_name_reuse_cex :
    (createMenuItem [wEspressoDel] "Espresso" 3 "A fresh espresso shot" 10).status = 409 ∧
    (createMenuItem [wEspressoDel] "Espresso" 3 "A fresh espresso shot" 10).store =
      [wEspressoDel] ∧
    ¬ ((∀ m ∈ [wEspressoDel],
          ¬ (m.deletedAt = none ∧ lowerAscii m.name = lowerAscii "Espresso")) →
       (∃ m ∈ [wEspressoDel],
          m.deletedAt ≠ none ∧ lowerAscii m.name = lowerAscii "Espresso") →
       (createMenuItem [wEspressoDel] "Espresso" 3 "A fresh espresso shot" 10).status = 201) := by
  refine ⟨by decide, by decide, ?_⟩
  intro h
  exact absurd (h (by decide) ⟨wEspressoDel, by decide⟩) (by decide)

/-- C3 (amended).  When no non-deleted menu item matches the new name
case-insensitively: if some row — necessarily soft-deleted — carries
the byte-identical name, the create fails with 409 (physical uniqueness)
and changes nothing; if no row at all carries the exact name (so a
soft-deleted row matching only in a different letter case does not
block), the create succeeds with 201 and appends the new record. -/
theorem c3_name_reuse_amended (t : List MenuItem) (name : String)
    (price : ℚ) (descr : String) (now : Nat)
    (hci : ∀ m ∈ t, m.deletedAt = none → lowerAscii m.name ≠ lowerAscii name) :
    ((∃ m ∈ t, m.name = name) →
      (createMenuItem t name price descr now).status = 409 ∧
      (createMenuItem t name price descr now).store = t) ∧
    ((∀ m ∈ t, m.name ≠ name) →
      (createMenuItem t name price descr now).status = 201 ∧
      (createMenuItem t name price descr now).body =
        some ⟨nextMenuId t, name, price, descr, now, now, none⟩ ∧
      (createMenuItem t name price descr now).store =
        t ++ [⟨nextMenuId t, name, price, descr, now, now, none⟩]) := by
  have h1 : t.any (fun m => m.deletedAt.isNone &&
      lowerAscii m.name == lowerAscii name) = false := by
    rw [List.any_eq_false]
    intro m hm
    simp only [Bool.and_eq_true, Option.isNone_iff_eq_none, beq_iff_eq, not_and]
    exact hci m hm
  constructor
  · rintro ⟨m, hm, hname⟩
    have h2 : t.any (fun m => m.name == name) = true :=
      List.any_eq_true.mpr ⟨m, hm, by simp [hname]⟩
    simp only [createMenuItem, h1, Bool.false_eq_true, if_false, h2, if_true]
    refine ⟨?_, ?_⟩ <;> trivial
  · intro hall
    have h2 : t.any (fun m => m.name == name) = false := by
      rw [List.any_eq_false]
      intro m hm
      simp [hall m hm]
    simp only [createMenuItem, h1, h2, Bool.false_eq_true, if_false]
    refine ⟨?_, ?_, ?_⟩ <;> trivial

/-- Witness for C3 (amended): the exact name is blocked, the
differently-cased name goes through. -/
theorem c3_name_reuse_amended_witness :
    (createMenuItem [wEspressoDel] "Espresso" 3 "A fresh espresso shot" 10).status = 409 ∧
    (createMenuItem [wEspressoDel] "ESPRESSO" 3 "A fresh espresso shot" 10).status = 201 := by
  have h1 := c3_name_reuse_amended [wEspressoDel] "Espresso" 3
    "A fresh espresso shot" 10 (by decide)
  have h2 := c3_name_reuse_amended [wEspressoDel] "ESPRESSO" 3
    "A fresh espresso shot" 10 (by decide)
  exact ⟨(h1.1 ⟨wEspressoDel, by decide⟩).1, (h2.2 (by decide)).1⟩

/-! ## Claim C4: the frame of the activation sweep -/

/-- A soft-deleted special whose `is_active` flag is still raised. -/
def wSpecDelAct : Special :=
  ⟨1, "Old special", 4, "Yesterday special offer", true, none, none, 0, 0, some 5⟩

/-- A request body creating an active special. -/
def wSpecInpB : SpecialInput := ⟨"New special", 5, "Fresh special offer", true, none, none⟩

/-- Counterexample for C4: creating an active special modifies a
*soft-deleted* special — the sweep `UPDATE ... WHERE is_active = true`
carries no `deletedAt` filter, so the soft-deleted active row
`wSpecDelAct` is rewritten to inactive, refuting "modifies no
soft-deleted Special". -/
theorem c4_sweep_frame_cex :
    ¬ (∀ sp ∈ [wSpecDelAct], sp.deletedAt ≠ none →
        sp ∈ (createSpecial [wSpecDelAct] wSpecInpB 10).store) ∧
    ({ wSpecDelAct with is_active := false } ∈
      (createSpecial [wSpecDelAct] wSpecInpB 10).store) := by
  constructor
  · intro h
    exact absurd (h wSpecDelAct (by decide) (by decide)) (by decide)
  · decide

/-- C4 (amended).  When a create or update sets `is_active = true` on a
Special S, the operation sets `is_active = false` on every *other*
Special that currently has `is_active = true` — soft-deleted ones
included, since the sweep carries no `deletedAt` filter; and any create
or update that does not set `is_active` to true changes no Special
other than S. -/
theorem c4_sweep_frame_amended (t : List Special) (inp : SpecialInput)
    (now j : Nat) (u : SpecialUpdate) :
    (inp.is_active = true → ∀ sp ∈ t, sp.is_active = true →
      { sp with is_active := false } ∈ (createSpecial t inp now).store) ∧
    (inp.is_active = false → (createSpecial t inp now).store =
      t ++ [⟨nextSpecialId t, inp.name, inp.price, inp.description, false,
        inp.valid_from, inp.valid_to, now, now, none⟩]) ∧
    (u.is_active = some true → ∀ ex ∈ t, ex.id = j → ex.deletedAt = none →
      ∀ sp ∈ t, sp.id ≠ j → sp.is_active = true →
        { sp with is_active := false } ∈ (updateSpecial t j u).store) ∧
    (¬ u.is_active = some true → ∀ ex ∈ t, ex.id = j → ex.deletedAt = none →
      ∀ sp ∈ t, sp.id ≠ j → sp ∈ (updateSpecial t j u).store) := by
  refine ⟨?_, ?_, ?_, ?_⟩
  · intro hact sp hsp hspa
    simp only [createSpecial, hact, if_true]
    refine List.mem_append_left _ ?_
    exact List.mem_map.mpr ⟨sp, hsp, by simp [deactivateAll, hspa]⟩
  · intro hinact
    simp only [createSpecial, hinact, Bool.false_eq_true, if_false]
  · intro hua ex hex hexid hexact sp hsp hspid hspa
    have hfs : (t.find? fun x => x.id == j && x.deletedAt.isNone).isSome :=
      List.find?_isSome.mpr ⟨ex, hex, by simp [hexid, hexact]⟩
    obtain ⟨y, hy⟩ := Option.isSome_iff_exists.mp hfs
    rw [updateSpecial_store hy, if_pos hua]
    have hmem1 : ({ sp with is_active := false } : Special) ∈
        t.map fun x =>
          if x.is_active && !(x.id == j) then { x with is_active := false }
          else x :=
      List.mem_map.mpr ⟨sp, hsp, by simp [hspa, hspid]⟩
    exact List.mem_map.mpr ⟨{ sp with is_active := false }, hmem1, by simp [hspid]⟩
  · intro hua ex hex hexid hexact sp hsp hspid
    have hfs : (t.find? fun x => x.id == j && x.deletedAt.isNone).isSome :=
      List.find?_isSome.mpr ⟨ex, hex, by simp [hexid, hexact]⟩
    obtain ⟨y, hy⟩ := Option.isSome_iff_exists.mp hfs
    rw [updateSpecial_store hy, if_neg hua]
    exact List.mem_map.mpr ⟨sp, hsp, by simp [hspid]⟩

/-- A second non-deleted, inactive special used to exercise the update
path of C4. -/
def wSpecB : Special :=
  ⟨2, "Evening deal", 4, "Cheap evening espresso", false, none, none, 0, 0, none⟩

/-- An update that activates a special. -/
def wSpecActUpd : SpecialUpdate := ⟨none, none, none, some true, none, none⟩

/-- Witness for C4 (amended), exercising all four conjuncts. -/
theorem c4_sweep_frame_amended_witness :
    ({ wSpecDelAct with is_active := false } ∈
      (createSpecial [wSpecDelAct] wSpecInpB 10).store) ∧
    ((createSpecial [wSpecA] ⟨"New special", 5, "Fresh special offer", false,
        none, none⟩ 10).store =
      [wSpecA] ++ [⟨2, "New special", 5, "Fresh special offer", false,
        none, none, 10, 10, none⟩]) ∧
    ({ wSpecA with is_active := false } ∈
      (updateSpecial [wSpecA, wSpecB] 2 wSpecActUpd).store) ∧
    (wSpecA ∈ (updateSpecial [wSpecA, wSpecB] 2 wSpecPriceUpd).store) := by
  have h1 := c4_sweep_frame_amended [wSpecDelAct] wSpecInpB 10 1 wSpecActUpd
  have h2 := c4_sweep_frame_amended [wSpecA]
    ⟨"New special", 5, "Fresh special offer", false, none, none⟩ 10 1 wSpecActUpd
  have h3 := c4_sweep_frame_amended [wSpecA, wSpecB] wSpecInpB 10 2 wSpecActUpd
  have h4 := c4_sweep_frame_amended [wSpecA, wSpecB] wSpecInpB 10 2 wSpecPriceUpd
  refine ⟨h1.1 rfl wSpecDelAct (by decide) rfl, h2.2.1 rfl, ?_, ?_⟩
  · exact h3.2.2.1 rfl wSpecB (by decide) rfl rfl wSpecA (by decide)
      (by decide) rfl
  · exact h4.2.2.2 (by decide) wSpecB (by decide) rfl rfl wSpecA (by decide)
      (by decide)

/-! ## Claim C1: the exclusivity invariant -/

/-- The non-deleted specials whose `is_active` flag is raised. -/
def activeSpecials (t : List Special) : List Special :=
  t.filter fun s => s.deletedAt.isNone && s.is_active

/-- The exclusivity invariant: among non-deleted specials, at most one
is active. -/
def atMostOneActiveSpecial (t : List Special) : Prop :=
  (activeSpecials t).length ≤ 1

/-- The inductive invariant: pairwise-distinct ids (the primary key)
together with exclusivity. -/
def SpecialInv (t : List Special) : Prop :=
  (t.map Special.id).Nodup ∧ atMostOneActiveSpecial t

theorem special_mem_id_le (t : List Special) :
    ∀ m ∈ t, m.id ≤ (t.map Special.id).foldr max 0 := by
  induction t with
  | nil => intro m hm; cases hm
  | cons x xs ih =>
    intro m hm
    simp only [List.map_cons, List.foldr_cons]
    rcases List.mem_cons.mp hm with rfl | h
    · exact Nat.le_max_left _ _
    · exact le_trans (ih m h) (Nat.le_max_right _ _)

theorem special_id_lt_next {t : List Special} {m : Special} (hm : m ∈ t) :
    m.id < nextSpecialId t :=
  Nat.lt_succ_of_le (special_mem_id_le t m hm)

/-- Appending the freshly numbered row keeps the id column nodup. -/
theorem special_nodup_append {t : List Special} {sp : Special}
    (hnd : (t.map Special.id).Nodup) (hid : sp.id = nextSpecialId t) :
    ((t ++ [sp]).map Special.id).Nodup := by
  rw [List.map_append]
  refine List.Nodup.append hnd (by simp) ?_
  intro a ha hb
  simp only [List.map_cons, List.map_nil, List.mem_singleton] at hb
  rcases List.mem_map.mp ha with ⟨y, hy, rfl⟩
  have := special_id_lt_next hy
  omega

/-- After the global deactivation sweep no special is active. -/
theorem activeSpecials_deactivateAll (t : List Special) :
    activeSpecials (deactivateAll t) = [] := by
  rw [activeSpecials, List.filter_eq_nil_iff]
  intro e he
  rcases List.mem_map.mp he with ⟨y, _, rfl⟩
  by_cases hy : y.is_active = true <;> simp [hy]

theorem deactivateAll_ids (t : List Special) :
    ((deactivateAll t).map Special.id) = t.map Special.id :=
  map_ids_pres Special.id t _
    (fun x => by by_cases h : x.is_active = true <;> simp [h])

theorem hardDeleteSpecial_found {t : List Special} {i : Nat} {s : Special}
    (h : t.find? (fun x => x.id == i && x.deletedAt.isSome) = some s) :
    hardDeleteSpecial t i = ⟨200, some s, t.filter (fun x => !(x.id == i))⟩ := by
  unfold hardDeleteSpecial
  rw [h]

theorem hardDeleteSpecial_store_none {t : List Special} {i : Nat}
    (h : t.find? (fun x => x.id == i && x.deletedAt.isSome) = none) :
    (hardDeleteSpecial t i).store = t := by
  unfold hardDeleteSpecial
  rw [h]
  rcases hf : t.find? (fun x => x.id == i) with _ | y <;> simp only [hf]

/-- One step of any write operation preserves the invariant. -/
theorem specialInv_step (t : List Special) (op : SpecialOp)
    (h : SpecialInv t) : SpecialInv (applySpecialOp t op) := by
  obtain ⟨hnd, hcnt⟩ := h
  rw [atMostOneActiveSpecial, activeSpecials] at hcnt
  cases op with
  | create inp now =>
    show SpecialInv (createSpecial t inp now).store
    cases hact : inp.is_active with
    | true =>
      have hstore : (createSpecial t inp now).store =
          deactivateAll t ++ [⟨nextSpecialId (deactivateAll t), inp.name,
            inp.price, inp.description, inp.is_active, inp.valid_from,
            inp.valid_to, now, now, none⟩] := by
        simp only [createSpecial, hact, if_true]
      rw [hstore]
      constructor
      · refine special_nodup_append ?_ rfl
        rw [deactivateAll_ids]
        exact hnd
      · rw [atMostOneActiveSpecial, activeSpecials, List.filter_append]
        have h0 := activeSpecials_deactivateAll t
        rw [activeSpecials] at h0
        rw [h0]
        simp [hact]
    | false =>
      have hstore : (createSpecial t inp now).store =
          t ++ [⟨nextSpecialId t, inp.name, inp.price, inp.description,
            inp.is_active, inp.valid_from, inp.valid_to, now, now, none⟩] := by
        simp only [createSpecial, hact, Bool.false_eq_true, if_false]
      rw [hstore]
      constructor
      · exact special_nodup_append hnd rfl
      · rw [atMostOneActiveSpecial, activeSpecials, List.filter_append]
        have h1 : ([(⟨nextSpecialId t, inp.name, inp.price, inp.description,
            inp.is_active, inp.valid_from, inp.valid_to, now, now,
            none⟩ : Special)].filter fun s => s.deletedAt.isNone && s.is_active) =
            [] := by
          simp [hact]
        rw [h1]
        simpa using hcnt
  | update j u =>
    show SpecialInv (updateSpecial t j u).store
    rcases hf : t.find? (fun x => x.id == j && x.deletedAt.isNone) with _ | y
    · rw [updateSpecial_missing hf]
      exact ⟨hnd, hcnt⟩
    · rw [updateSpecial_store hf]
      by_cases hua : u.is_active = some true
      · rw [if_pos hua]
        have hids : (((t.map fun x =>
            if x.is_active && !(x.id == j) then { x with is_active := false }
            else x).map fun x =>
              if x.id == j then applySpecialUpdate u x else x).map
            Special.id) = t.map Special.id := by
          rw [map_ids_pres Special.id _ _
            (fun x => by by_cases h : x.id = j <;> simp [h, applySpecialUpdate]),
            map_ids_pres Special.id _ _
            (fun x => by
              by_cases h : (x.is_active && !(x.id == j)) = true <;> simp [h])]
        refine ⟨by rw [hids]; exact hnd, ?_⟩
        rw [atMostOneActiveSpecial, activeSpecials]
        refine filter_length_le_one Special.id _ _ j (by rw [hids]; exact hnd) ?_
        intro x hx hpx
        rcases List.mem_map.mp hx with ⟨z1, hz1, rfl⟩
        rcases List.mem_map.mp hz1 with ⟨z, hz, rfl⟩
        by_cases hzj : z.id = j
        · by_cases h1 : (z.is_active && !(z.id == j)) = true <;>
            simp [h1, hzj, applySpecialUpdate]
        · exfalso
          have h1 : (if z.is_active && !(z.id == j) then
              { z with is_active := false } else z).is_active = false := by
            by_cases hza : z.is_active = true
            · rw [if_pos (by simp [hza, hzj])]
            · rw [if_neg (by simp [hza])]
              simpa using hza
          have h2 : (if z.is_active && !(z.id == j) then
                { z with is_active := false } else z).id = z.id := by
            by_cases hza : (z.is_active && !(z.id == j)) = true <;> simp [hza]
          rw [if_neg (by rw [h2]; simp [hzj])] at hpx
          rw [Bool.and_eq_true, h1] at hpx
          exact absurd hpx.2 (by simp)
      · rw [if_neg hua]
        have hids : ((t.map fun x =>
            if x.id == j then applySpecialUpdate u x else x).map
            Special.id) = t.map Special.id :=
          map_ids_pres Special.id _ _
            (fun x => by by_cases h : x.id = j <;> simp [h, applySpecialUpdate])
        refine ⟨by rw [hids]; exact hnd, ?_⟩
        rw [atMostOneActiveSpecial, activeSpecials]
        refine le_trans (filter_map_length_le _ _
          (fun s => s.deletedAt.isNone && s.is_active) t ?_) hcnt
        intro x hx hpx
        by_cases hxj : x.id = j
        · rw [if_pos (by simp [hxj])] at hpx
          rcases hub : u.is_active with _ | b
          · simpa [applySpecialUpdate, hub] using hpx
          · have hb : b = false := by
              cases b
              · rfl
              · exact absurd hub hua
            subst hb
            rw [Bool.and_eq_true] at hpx
            have : (applySpecialUpdate u x).is_active = false := by
              simp [applySpecialUpdate, hub]
            rw [this] at hpx
            exact absurd hpx.2 (by simp)
        · rwa [if_neg (by simp [hxj])] at hpx
  | softDelete j now =>
    show SpecialInv (softDeleteSpecial t j now).store
    rcases hf : t.find? (fun x => x.id == j && x.deletedAt.isNone) with _ | y
    · rw [softDeleteSpecial_missing now hf]
      exact ⟨hnd, hcnt⟩
    · have hstore : (softDeleteSpecial t j now).store =
          t.map fun x =>
            if x.id == j then { x with deletedAt := some now, updatedAt := now }
            else x := by
        rw [softDeleteSpecial_found now hf]
      rw [hstore]
      have hids := map_ids_pres Special.id t
        (fun x => if x.id == j then
          { x with deletedAt := some now, updatedAt := now } else x)
        (fun x => by by_cases h : x.id = j <;> simp [h])
      refine ⟨by rw [hids]; exact hnd, ?_⟩
      rw [atMostOneActiveSpecial, activeSpecials]
      refine le_trans (filter_map_length_le _ _
        (fun s => s.deletedAt.isNone && s.is_active) t ?_) hcnt
      intro x hx hpx
      by_cases hxj : x.id = j
      · rw [if_pos (by simp [hxj])] at hpx
        simp at hpx
      · rwa [if_neg (by simp [hxj])] at hpx
  | hardDelete j =>
    show SpecialInv (hardDeleteSpecial t j).store
    rcases hf : t.find? (fun x => x.id == j && x.deletedAt.isSome) with _ | y
    · rw [hardDeleteSpecial_store_none hf]
      exact ⟨hnd, hcnt⟩
    · have hstore : (hardDeleteSpecial t j).store =
          t.filter (fun x => !(x.id == j)) := by
        rw [hardDeleteSpecial_found hf]
      rw [hstore]
      have hsub : List.Sublist (t.filter (fun x => !(x.id == j))) t := List.filter_sublist t
      constructor
      · exact (List.Sublist.map Special.id hsub).nodup hnd
      · rw [atMostOneActiveSpecial, activeSpecials]
        exact le_trans
          (List.Sublist.length_le (List.Sublist.filter _ hsub)) hcnt

/-- Every reachable table satisfies the invariant. -/
theorem specialInv_reachable {t : List Special} (h : SpecialReachable t) :
    SpecialInv t := by
  induction h with
  | init => exact ⟨by simp, by simp [atMostOneActiveSpecial, activeSpecials]⟩
  | step t op _ ih => exact specialInv_step t op ih

/-- A request body creating the active Special A of the concrete C1
scenario. -/
def wSpecInpA : SpecialInput := ⟨"Special A", 5, "First special offer", true, none, none⟩

/-- A request body creating the active Special B of the concrete C1
scenario. -/
def wSpecInpB2 : SpecialInput := ⟨"Special B", 6, "Second special offer", true, none, none⟩

/-- C1.  After any write operation from any reachable table state, at
most one non-deleted special is active; and concretely, creating
Special A with `is_active = true` and then Special B with
`is_active = true` leaves A inactive and B active. -/
theorem c1_special_exclusivity (t : List Special) (op : SpecialOp)
    (h : SpecialReachable t) :
    atMostOneActiveSpecial (applySpecialOp t op) ∧
    ((createSpecial (createSpecial [] wSpecInpA 1).store wSpecInpB2 2).store.map
      fun s => (s.id, s.is_active)) = [(1, false), (2, true)] :=
  ⟨(specialInv_step t op (specialInv_reachable h)).2, by decide⟩

/-- Witness for C1 at the empty reachable table and a concrete create. -/
theorem c1_special_exclusivity_witness :
    atMostOneActiveSpecial (applySpecialOp [] (SpecialOp.create wSpecInpA 1)) ∧
    ((createSpecial (createSpecial [] wSpecInpA 1).store wSpecInpB2 2).store.map
      fun s => (s.id, s.is_active)) = [(1, false), (2, true)] :=
  c1_special_exclusivity [] (SpecialOp.create wSpecInpA 1) SpecialReachable.init

/-! ## Claim C8: restore for specials -/

/-- Counterexample for C8: the server has no `/special/:id/restore`
route, so a restore request for the soft-deleted special `wSpecD`
falls into the catch-all handler and answers 404 — not the claimed
200-with-restored-record. -/
theorem c8_special_restore_cex :
    routeSpecial [wSpecD] (SpecialRequest.restore 2 10) = ⟨404, none, [wSpecD]⟩ ∧
    ¬ ((routeSpecial [wSpecD] (SpecialRequest.restore 2 10)).status = 200 ∧
       (routeSpecial [wSpecD] (SpecialRequest.restore 2 10)).body ≠ none) := by
  exact ⟨rfl, by decide⟩

/-- C8 (amended).  No restore operation exists for Specials: a restore
request on *any* Special id in *any* table state — soft-deleted,
active, or absent — falls through to the catch-all route handler,
answering 404 (route not found) and leaving the table unchanged. -/
theorem c8_special_restore_amended (t : List Special) (i now : Nat) :
    routeSpecial t (SpecialRequest.restore i now) = ⟨404, none, t⟩ :=
  rfl

/-! ## Claim C9: the store-hours upsert -/

/-- C9.  For a `PATCH /hours` body whose provided day fields are all
valid: if at least one day is provided, then against an empty store the
handler creates the single record with every unspecified day set to
`'Closed'` and signals 201, and against an existing record it
overwrites exactly the supplied day fields and signals 200; a body with
no day fields at all is rejected with 400 and changes nothing. -/
theorem c9_hours_upsert (b : HoursBody) (h : StoreHours)
    (hv : (hoursFields b).all dayFieldOk = true) :
    (((hoursFields b).all Option.isNone) = false →
      patchHours none b = (201, some
        ⟨1,
          (trimDay b.monday).getD "Closed",
          (trimDay b.tuesday).getD "Closed",
          (trimDay b.wednesday).getD "Closed",
          (trimDay b.thursday).getD "Closed",
          (trimDay b.friday).getD "Closed",
          (trimDay b.saturday).getD "Closed",
          (trimDay b.sunday).getD "Closed"⟩) ∧
      patchHours (some h) b = (200, some { h with
        monday := (trimDay b.monday).getD h.monday
        tuesday := (trimDay b.tuesday).getD h.tuesday
        wednesday := (trimDay b.wednesday).getD h.wednesday
        thursday := (trimDay b.thursday).getD h.thursday
        friday := (trimDay b.friday).getD h.friday
        saturday := (trimDay b.saturday).getD h.saturday
        sunday := (trimDay b.sunday).getD h.sunday })) ∧
    (((hoursFields b).all Option.isNone) = true →
      ∀ st, patchHours st b = (400, st)) := by
  constructor
  · intro hne
    constructor <;> simp [patchHours, hv, hne]
  · intro hall st
    simp [patchHours, hv, hall]

/-- A `PATCH /hours` body supplying only a Monday value. -/
def wHoursMonday : HoursBody := ⟨some "9am - 5pm", none, none, none, none, none, none⟩

/-- A pre-existing store-hours record. -/
def wHoursRec : StoreHours :=
  ⟨1, "Closed", "Closed", "8am - 2pm", "Closed", "Closed", "Closed", "Closed"⟩

/-- The empty `PATCH /hours` body. -/
def wHoursEmpty : HoursBody := ⟨none, none, none, none, none, none, none⟩

/-- Witness for C9: create-with-defaults, partial overwrite, and the
empty-body rejection, at concrete inputs. -/
theorem c9_hours_upsert_witness :
    patchHours none wHoursMonday = (201, some
      ⟨1, "9am - 5pm", "Closed", "Closed", "Closed", "Closed", "Closed",
        "Closed"⟩) ∧
    patchHours (some wHoursRec) wHoursMonday =
      (200, some { wHoursRec with monday := "9am - 5pm" }) ∧
    patchHours (some wHoursRec) wHoursEmpty = (400, some wHoursRec) := by
  have h1 := c9_hours_upsert wHoursMonday wHoursRec (by decide)
  have h2 := c9_hours_upsert wHoursEmpty wHoursRec (by decide)
  exact ⟨((h1.1 (by decide)).1).trans (by decide),
    ((h1.1 (by decide)).2).trans (by decide),
    h2.2 (by decide) (some wHoursRec)⟩

/-! ## Claim C10: the hours grammar

The concrete examples are settled by evaluation.  The general bounds
statements need that the four recognizer rules of
`isValidHoursFormat` are mutually exclusive: a string matched by one of
the anchored range patterns cannot also match an earlier rule, because
the earlier rules demand characters (keyword letters, meridiem letters)
that the later patterns exclude.  The lemmas below establish that
character-level disjointness. -/

theorem ciEq_toNat {x t : Char} (h : ciEq x t = true) :
    x.toNat = t.toNat ∨ x.toNat + 32 = t.toNat := by
  simp only [ciEq, Bool.or_eq_true, Bool.and_eq_true, decide_eq_true_eq] at h
  rcases h with h | h
  · exact Or.inl (by rw [h])
  · exact Or.inr h.2

theorem isDigit_toNat {c : Char} (h : isDigit c = true) :
    48 ≤ c.toNat ∧ c.toNat ≤ 57 := by
  simpa [isDigit] using h

theorem jsWs_of_digit {c : Char} (h : isDigit c = true) : jsWs c = false := by
  have hd := isDigit_toNat h
  by_contra hx
  rw [Bool.not_eq_false] at hx
  simp only [jsWs, Bool.or_eq_true, decide_eq_true_eq] at hx
  rcases hx with ((((h1 | h1) | h1) | h1) | h1) | h1 <;>
    · subst h1
      simp at hd

theorem skipWs_cons_of_not_ws {c : Char} {cs : List Char}
    (h : jsWs c = false) : skipWs (c :: cs) = c :: cs := by
  simp [skipWs, h]

/-- A character whose code is none of `a`, `A`, `p`, `P` cannot open a
meridiem, so the meridiem parse fails. -/
theorem parseMeridiem_none {c : Char} (es : List Char)
    (h : c.toNat ≠ 97 ∧ c.toNat ≠ 65 ∧ c.toNat ≠ 112 ∧ c.toNat ≠ 80) :
    parseMeridiem (c :: es) = none := by
  have hcond : ¬ (ciEq c 'a' || ciEq c 'p') = true := by
    intro hx
    simp only [Bool.or_eq_true] at hx
    rcases hx with h1 | h1 <;>
      · rcases ciEq_toNat h1 with h2 | h2 <;> simp at h2 <;> omega
  simp only [parseMeridiem]
  rw [if_neg hcond]

theorem parseMeridiem_none_of_digit {c : Char} (es : List Char)
    (h : isDigit c = true) : parseMeridiem (c :: es) = none := by
  have hd := isDigit_toNat h
  exact parseMeridiem_none es (by omega)

/-! ### Shape extraction for the parsers -/

theorem parseUpTo2Digits_head {l : List Char} {n : Nat} {r : List Char}
    (h : parseUpTo2Digits l = some (n, r)) :
    ∃ c cs, l = c :: cs ∧ isDigit c = true := by
  cases l with
  | nil => simp [parseUpTo2Digits] at h
  | cons c cs =>
    by_cases hd : isDigit c = true
    · exact ⟨c, cs, rfl, hd⟩
    · simp only [parseUpTo2Digits] at h
      rw [if_neg hd] at h
      cases h

theorem parse12Time_head {l : List Char} {h1 m1 : Nat} {r : List Char}
    (h : parse12Time l = some (h1, m1, r)) :
    ∃ c cs, l = c :: cs ∧ isDigit c = true := by
  unfold parse12Time at h
  cases h0 : parseUpTo2Digits l with
  | none => rw [h0] at h; cases h
  | some x => exact parseUpTo2Digits_head h0

theorem parse12h_head {l : List Char} {q : Nat × Nat × Nat × Nat}
    (h : parse12h l = some q) :
    ∃ c cs, l = c :: cs ∧ isDigit c = true := by
  unfold parse12h at h
  cases h0 : parse12Time l with
  | none => rw [h0] at h; cases h
  | some x =>
    obtain ⟨a, b, r⟩ := x
    exact parse12Time_head h0

theorem parse24cTime_head {l : List Char} {h1 m1 : Nat} {r : List Char}
    (h : parse24cTime l = some (h1, m1, r)) :
    ∃ c cs, l = c :: cs ∧ isDigit c = true := by
  unfold parse24cTime at h
  cases h0 : parseUpTo2Digits l with
  | none => rw [h0] at h; cases h
  | some x => exact parseUpTo2Digits_head h0

theorem parse24colon_head {l : List Char} {q : Nat × Nat × Nat × Nat}
    (h : parse24colon l = some q) :
    ∃ c cs, l = c :: cs ∧ isDigit c = true := by
  unfold parse24colon at h
  cases h0 : parse24cTime l with
  | none => rw [h0] at h; cases h
  | some x =>
    obtain ⟨a, b, r⟩ := x
    exact parse24cTime_head h0

/-! ### Structure of a successful keyword match -/

theorem isKeyword_cases {l : List Char} (h : isKeyword l = true) :
    (∃ c cs, l = c :: cs ∧ (ciEq c 'c' = true ∨ ciEq c 'o' = true)) ∨
    (∃ rest, l = '2' :: '4' :: rest ∧ kw24Tail rest = true) := by
  unfold isKeyword at h
  simp only [Bool.or_eq_true] at h
  rcases h with (h | h) | h
  · cases l with
    | nil => simp [ciMatch] at h
    | cons c cs =>
      simp only [ciMatch, Bool.and_eq_true] at h
      exact Or.inl ⟨c, cs, rfl, Or.inl h.1⟩
  · cases l with
    | nil => simp [ciMatch] at h
    | cons c cs =>
      simp only [ciMatch, Bool.and_eq_true] at h
      exact Or.inl ⟨c, cs, rfl, Or.inr h.1⟩
  · cases l with
    | nil => simp at h
    | cons c1 cs =>
      cases cs with
      | nil => simp at h
      | cons c2 rest =>
        simp only [Bool.or_eq_true, Bool.and_eq_true, decide_eq_true_eq] at h
        rcases h with ⟨⟨h1, h2⟩, h3⟩ | ⟨⟨h1, _⟩, _⟩
        · subst h1
          subst h2
          exact Or.inr ⟨rest, rfl, h3⟩
        · exact Or.inl ⟨c1, c2 :: rest, rfl, Or.inr h1⟩

theorem kw24Tail_cases {rest : List Char} (h : kw24Tail rest = true) :
    ∃ c r2, skipWs rest = c :: r2 ∧ (ciEq c 'h' = true ∨ c = '/') := by
  unfold kw24Tail at h
  split at h
  · rename_i c r2 hsw
    split at h
    · rename_i hch
      exact ⟨c, r2, hsw, Or.inl hch⟩
    · split at h
      · rename_i hcs
        exact ⟨c, r2, hsw, Or.inr hcs⟩
      · cases h
  · cases h

theorem parseSepCs_cases {l : List Char} {r : List Char}
    (h : parseSepCs l = some r) :
    ∃ e es, l = e :: es ∧ (e = '-' ∨ e = '–' ∨ e = '—' ∨ e = 't') := by
  cases l with
  | nil => simp [parseSepCs] at h
  | cons e es =>
    simp only [parseSepCs] at h
    by_cases h1 : (e = '-' || e = '–' || e = '—') = true
    · simp only [Bool.or_eq_true, decide_eq_true_eq] at h1
      rcases h1 with (h1 | h1) | h1
      · exact ⟨e, es, rfl, Or.inl h1⟩
      · exact ⟨e, es, rfl, Or.inr (Or.inl h1)⟩
      · exact ⟨e, es, rfl, Or.inr (Or.inr (Or.inl h1))⟩
    · rw [if_neg h1] at h
      by_cases h2 : e = 't'
      · exact ⟨e, es, rfl, Or.inr (Or.inr (Or.inr h2))⟩
      · rw [if_neg h2] at h
        cases h

/-- The four possible separator openers are acceptable to no meridiem. -/
theorem parseMeridiem_none_of_sep {e : Char} (es : List Char)
    (h : e = '-' ∨ e = '–' ∨ e = '—' ∨ e = 't') :
    parseMeridiem (e :: es) = none := by
  rcases h with rfl | rfl | rfl | rfl <;> exact parseMeridiem_none es (by decide)

/-- A keyword match whose string starts with a digit can only be the
`24…` alternative. -/
theorem head_digit_keyword {l : List Char} {c : Char} {cs : List Char}
    (hl : l = c :: cs) (hd : isDigit c = true) (hk : isKeyword l = true) :
    ∃ rest, l = '2' :: '4' :: rest ∧ kw24Tail rest = true := by
  rcases isKeyword_cases hk with ⟨c2, cs2, heq, hco⟩ | h24
  · exfalso
    rw [hl] at heq
    injection heq with h1 _
    subst h1
    have hdn := isDigit_toNat hd
    rcases hco with hc | hc <;>
      rcases ciEq_toNat hc with h2 | h2 <;> simp at h2 <;> omega
  · exact h24

/-- Rule disjointness: a string matched by the 12-hour pattern is not a
keyword. -/
theorem parse12h_not_keyword {l : List Char} {q : Nat × Nat × Nat × Nat}
    (hp : parse12h l = some q) : isKeyword l = false := by
  by_contra hx
  rw [Bool.not_eq_false] at hx
  obtain ⟨c, cs, hl, hd⟩ := parse12h_head hp
  obtain ⟨rest, hl2, h24⟩ := head_digit_keyword hl hd hx
  subst hl2
  obtain ⟨d, r2, hsw, hP⟩ := kw24Tail_cases h24
  cases hrest : rest with
  | nil =>
    rw [hrest] at hsw
    simp [skipWs] at hsw
  | cons a as =>
    subst hrest
    by_cases ha : a = ':'
    · subst ha
      rw [skipWs_cons_of_not_ws (by decide)] at hsw
      injection hsw with h1 _
      rcases hP with hP | hP
      · rcases ciEq_toNat hP with h2 | h2 <;> rw [← h1] at h2 <;> simp at h2
      · rw [← h1] at hP
        exact absurd hP (by decide)
    · have e1 : parseUpTo2Digits ('2' :: '4' :: a :: as) = some (24, a :: as) := rfl
      have e2 : parse12Time ('2' :: '4' :: a :: as) = some (24, 0, a :: as) := by
        unfold parse12Time
        simp only [e1]
        split
        · rename_i rest2 heq2
          injection heq2 with hh1 _
          exact absurd hh1 ha
        · rfl
      have e3 : parseMeridiem (skipWs (a :: as)) = none := by
        rw [hsw]
        rcases hP with hP | hP
        · rcases ciEq_toNat hP with h2 | h2 <;>
            (simp at h2; exact parseMeridiem_none r2 (by omega))
        · subst hP
          exact parseMeridiem_none r2 (by decide)
      unfold parse12h at hp
      simp only [e2, e3] at hp
      exact Option.noConfusion hp

/-- Rule disjointness: a string matched by the colon/dot 24-hour
pattern is neither a keyword nor a 12-hour match. -/
theorem parse24colon_disjoint {l : List Char} {q : Nat × Nat × Nat × Nat}
    (hp : parse24colon l = some q) :
    isKeyword l = false ∧ parse12h l = none := by
  unfold parse24colon at hp
  cases h1 : parse24cTime l with
  | none =>
    simp only [h1] at hp
    exact Option.noConfusion hp
  | some x =>
    obtain ⟨h1v, m1v, r1⟩ := x
    simp only [h1] at hp
    cases h2 : parseSepCs (skipWs r1) with
    | none =>
      simp only [h2] at hp
      exact Option.noConfusion hp
    | some r2 =>
      clear hp
      unfold parse24cTime at h1
      cases h0 : parseUpTo2Digits l with
      | none =>
        simp only [h0] at h1
        exact Option.noConfusion h1
      | some x =>
        obtain ⟨n, r⟩ := x
        simp only [h0] at h1
        cases hr : r with
        | nil =>
          rw [hr] at h1
          exact Option.noConfusion h1
        | cons cch rest2 =>
          rw [hr] at h1
          simp only [] at h1
          by_cases hcc : (cch = ':' || cch = '.') = true
          · rw [if_pos hcc] at h1
            cases h3 : parseExact2Digits rest2 with
            | none =>
              simp only [h3] at h1
              exact Option.noConfusion h1
            | some y =>
              obtain ⟨mm, r3⟩ := y
              simp only [h3, Option.some.injEq, Prod.mk.injEq] at h1
              obtain ⟨hn, hmm, hr3⟩ := h1
              obtain ⟨c, cs, hl, hd⟩ := parseUpTo2Digits_head h0
              simp only [Bool.or_eq_true, decide_eq_true_eq] at hcc
              have hccw : jsWs cch = false := by
                rcases hcc with rfl | rfl <;> decide
              constructor
              · -- not a keyword
                by_contra hx
                rw [Bool.not_eq_false] at hx
                obtain ⟨rest, hl2, h24⟩ := head_digit_keyword hl hd hx
                obtain ⟨d, r4, hsw, hP⟩ := kw24Tail_cases h24
                have e1 : parseUpTo2Digits ('2' :: '4' :: rest) = some (24, rest) := rfl
                rw [hl2, e1] at h0
                injection h0 with h0a
                injection h0a with _ h0b
                rw [h0b, hr] at hsw
                rw [skipWs_cons_of_not_ws hccw] at hsw
                injection hsw with hdd _
                rcases hP with hP | hP
                · rcases ciEq_toNat hP with h5 | h5 <;> rw [← hdd] at h5 <;>
                    (rcases hcc with rfl | rfl <;> simp at h5)
                · rw [← hdd] at hP
                  rcases hcc with rfl | rfl <;> exact absurd hP (by decide)
              · -- not a 12-hour match
                obtain ⟨e, es, hse, hesep⟩ := parseSepCs_cases h2
                rcases hcc with rfl | rfl
                · -- colon time: the 12-hour parse shares the minutes and
                  -- then meets the separator where it wants a meridiem
                  have e2 : parse12Time l = some (n, mm, r3) := by
                    unfold parse12Time
                    simp only [h0, hr, h3]
                  have e3 : parseMeridiem (skipWs r3) = none := by
                    rw [hr3, hse]
                    exact parseMeridiem_none_of_sep es hesep
                  unfold parse12h
                  simp only [e2, e3]
                · -- dot time: the 12-hour parse stops before the dot,
                  -- which is not a meridiem
                  have e2 : parse12Time l = some (n, 0, '.' :: rest2) := by
                    unfold parse12Time
                    simp only [h0, hr]
                    split
                    · rename_i rest3 heq2
                      injection heq2 with hh1 _
                      exact absurd hh1 (by decide)
                    · rfl
                  have e3 : parseMeridiem (skipWs ('.' :: rest2)) = none := by
                    rw [skipWs_cons_of_not_ws (by decide)]
                    exact parseMeridiem_none rest2 (by decide)
                  unfold parse12h
                  simp only [e2, e3]
          · rw [if_neg hcc] at h1
            exact Option.noConfusion h1

theorem takeWhile_three {p : Char → Bool} {l : List Char}
    (h : 3 ≤ (l.takeWhile p).length) :
    ∃ d1 d2 d3 rest, l = d1 :: d2 :: d3 :: rest ∧
      p d1 = true ∧ p d2 = true ∧ p d3 = true := by
  cases l with
  | nil => simp at h
  | cons d1 l1 =>
    by_cases h1 : p d1 = true
    · cases l1 with
      | nil => simp [List.takeWhile_cons, h1] at h
      | cons d2 l2 =>
        by_cases h2 : p d2 = true
        · cases l2 with
          | nil => simp [List.takeWhile_cons, h1, h2] at h
          | cons d3 l3 =>
            by_cases h3 : p d3 = true
            · exact ⟨d1, d2, d3, l3, rfl, h1, h2, h3⟩
            · simp [List.takeWhile_cons, h1, h2, h3] at h
        · simp [List.takeWhile_cons, h1, h2] at h
    · simp [List.takeWhile_cons, h1] at h

/-- Rule disjointness: a string matched by the compact 24-hour pattern
matches none of the earlier rules. -/
theorem parse24compact_disjoint {l : List Char} {t1 t2 : List Char}
    (hp : parse24compact l = some (t1, t2)) :
    isKeyword l = false ∧ parse12h l = none ∧ parse24colon l = none := by
  unfold parse24compact at hp
  cases h0 : parse34 l with
  | none =>
    simp only [h0] at hp
    exact Option.noConfusion hp
  | some x =>
    clear hp
    obtain ⟨t1', r1⟩ := x
    unfold parse34 at h0
    by_cases hlen : ((l.takeWhile isDigit).length = 3 ||
        (l.takeWhile isDigit).length = 4) = true
    · have h3 : 3 ≤ (l.takeWhile isDigit).length := by
        simp only [Bool.or_eq_true, decide_eq_true_eq] at hlen
        omega
      obtain ⟨d1, d2, d3, rest, hl, hd1, hd2, hd3⟩ := takeWhile_three h3
      have hn1 := isDigit_toNat hd1
      have hn2 := isDigit_toNat hd2
      have hn3 := isDigit_toNat hd3
      subst hl
      have e1 : parseUpTo2Digits (d1 :: d2 :: d3 :: rest) =
          some (digitVal d1 * 10 + digitVal d2, d3 :: rest) := by
        simp [parseUpTo2Digits, hd1, hd2]
      have hd3c : d3 ≠ ':' := by
        intro hx
        rw [hx] at hn3
        simp at hn3
      have hd3d : d3 ≠ '.' := by
        intro hx
        rw [hx] at hn3
        simp at hn3
      refine ⟨?_, ?_, ?_⟩
      · -- not a keyword
        by_contra hx
        rw [Bool.not_eq_false] at hx
        obtain ⟨rest2, hl2, h24⟩ := head_digit_keyword rfl hd1 hx
        injection hl2 with hh1 hl2
        injection hl2 with hh2 hl2
        subst hl2
        obtain ⟨d, r4, hsw, hP⟩ := kw24Tail_cases h24
        rw [skipWs_cons_of_not_ws (jsWs_of_digit hd3)] at hsw
        injection hsw with hdd _
        rcases hP with hP | hP
        · rcases ciEq_toNat hP with h5 | h5 <;> rw [← hdd] at h5 <;>
            simp at h5 <;> omega
        · rw [← hdd] at hP
          have := congrArg Char.toNat hP
          simp at this
          omega
      · -- not a 12-hour match
        have e2 : parse12Time (d1 :: d2 :: d3 :: rest) =
            some (digitVal d1 * 10 + digitVal d2, 0, d3 :: rest) := by
          unfold parse12Time
          simp only [e1]
          split
          · rename_i rest3 heq2
            injection heq2 with hh1 _
            exact absurd hh1 hd3c
          · rfl
        have e3 : parseMeridiem (skipWs (d3 :: rest)) = none := by
          rw [skipWs_cons_of_not_ws (jsWs_of_digit hd3)]
          exact parseMeridiem_none_of_digit rest hd3
        unfold parse12h
        simp only [e2, e3]
      · -- not a colon/dot 24-hour match
        have e4 : parse24cTime (d1 :: d2 :: d3 :: rest) = none := by
          unfold parse24cTime
          simp only [e1]
          rw [if_neg ?_]
          simp only [Bool.or_eq_true, decide_eq_true_eq]
          rintro (hx | hx)
          · exact hd3c hx
          · exact hd3d hx
        unfold parse24colon
        simp only [e4]
    · simp only [parse34] at h0
      rw [if_neg hlen] at h0
      exact Option.noConfusion h0

/-- Two sequential guard ifs collapse to a Bool conjunction. -/
theorem boolGate (a b : Bool) :
    ((if a = true then false else if b = true then false else true) = true) ↔
      (a = false ∧ b = false) := by
  cases a <;> cases b <;> simp

/-- C10.  The hours-format validator accepts `"6am - 8pm"`,
`"07:00 - 19:00"`, `"0700-1900"`, `"Closed"`, `"24/7"` and rejects
`"13am - 8pm"`, `"25:00 - 26:00"`, `"random text"`; in general a
12-hour range is accepted exactly when both hours lie in `[1,12]` and
both minutes in `[0,59]`, a 24-hour range (colon/dot or compact)
exactly when each extracted hour is at most 23 and each minute at most
59, and a day string that is empty after trimming or longer than 50
characters is rejected. -/
theorem c10_hours_grammar :
    hoursDayAccepts "6am - 8pm" = true ∧
    hoursDayAccepts "07:00 - 19:00" = true ∧
    hoursDayAccepts "0700-1900" = true ∧
    hoursDayAccepts "Closed" = true ∧
    hoursDayAccepts "24/7" = true ∧
    hoursDayAccepts "13am - 8pm" = false ∧
    hoursDayAccepts "25:00 - 26:00" = false ∧
    hoursDayAccepts "random text" = false ∧
    (∀ (l : List Char) (h1 m1 h2 m2 : Nat),
      parse12h l = some (h1, m1, h2, m2) →
      (validHours l = true ↔
        (1 ≤ h1 ∧ h1 ≤ 12 ∧ m1 ≤ 59 ∧ 1 ≤ h2 ∧ h2 ≤ 12 ∧ m2 ≤ 59))) ∧
    (∀ (l : List Char) (h1 m1 h2 m2 : Nat),
      parse24colon l = some (h1, m1, h2, m2) →
      (validHours l = true ↔
        (h1 ≤ 23 ∧ m1 ≤ 59 ∧ h2 ≤ 23 ∧ m2 ≤ 59))) ∧
    (∀ (l t1 t2 : List Char),
      parse24compact l = some (t1, t2) →
      (validHours l = true ↔
        ((compactHM t1).1 ≤ 23 ∧ (compactHM t1).2 ≤ 59 ∧
          (compactHM t2).1 ≤ 23 ∧ (compactHM t2).2 ≤ 59))) ∧
    (∀ s : String, jsTrim s.toList = [] → hoursDayAccepts s = false) ∧
    (∀ s : String, 50 < s.length → hoursDayAccepts s = false) := by
  refine ⟨by decide, by decide, by decide, by decide, by decide, by decide,
    by decide, by decide, ?_, ?_, ?_, ?_, ?_⟩
  · intro l h1 m1 h2 m2 hp
    have hk := parse12h_not_keyword hp
    unfold validHours
    simp only [hk, Bool.false_eq_true, if_false, hp]
    rw [boolGate]
    simp only [Bool.or_eq_false_iff, decide_eq_false_iff_not]
    omega
  · intro l h1 m1 h2 m2 hp
    obtain ⟨hk, h12⟩ := parse24colon_disjoint hp
    unfold validHours
    simp only [hk, Bool.false_eq_true, if_false, h12, hp]
    rw [boolGate]
    simp only [Bool.or_eq_false_iff, decide_eq_false_iff_not]
    omega
  · intro l t1 t2 hp
    obtain ⟨hk, h12, h24⟩ := parse24compact_disjoint hp
    unfold validHours
    simp only [hk, Bool.false_eq_true, if_false, h12, h24, hp]
    rw [boolGate]
    simp only [Bool.or_eq_false_iff, decide_eq_false_iff_not]
    omega
  · intro s h
    have h2 : jsTrim s.data = [] := h
    simp [hoursDayAccepts, h2]
  · intro s h
    have h50 : decide (s.length ≤ 50) = false :=
      decide_eq_false_iff_not.mpr (by omega)
    simp [hoursDayAccepts, h50]

end CoffeeShop
